import Mathlib

/-!
# simpleISS: instruction-set simulator for a small 8-bit processor

Shallow embedding of `src/simpleISS.c`: the local memory with its hit/miss
timing (`init_localmem`, `load_memory`, `store_memory`) and the dispatch loop
of `execute_assembly`.

Modelling conventions
* a C `int` is an `Int`; every `+`, `-`, `++` on an `int` is followed by
  `wrap32`, the two's-complement value of the 32-bit result;
* `size_t` is a `Nat`; an `int` assigned to a `size_t` goes through `toSizeT`;
* an array (`registers[7]`, `memory[256]`, `occupied[256]`) is a function on
  `Nat`, and every access checks the index against the array bounds: an index
  outside the bounds has no defined behaviour in C and is reported as
  `none` / `Outcome.undef`;
* the `while` loop takes a fuel argument, one unit per iteration.
-/

namespace SimpleISS

/-! ## Machine integers -/

/-- Smallest value of a C `int`. -/
def INT_MIN : Int := -2147483648

/-- Largest value of a C `int`. -/
def INT_MAX : Int := 2147483647

/-- Two's-complement value of a 32-bit signed result. -/
def wrap32 (x : Int) : Int := (x + 2147483648) % 4294967296 - 2147483648

/-- Conversion of an `int` to the 64-bit unsigned `size_t`. -/
def toSizeT (x : Int) : Nat := (x % 18446744073709551616).toNat

/-! ## Data model -/

/-- `#define LOCALMEMORY 256` -/
def LOCALMEMORY : Int := 256

/-- Number of elements of `int registers[7]`. -/
def NREGS : Int := 7

/-- The enumerators of `instruction_type`, in declaration order. -/
def MOV : Int := 0
/-- Enumerator `ADD`. -/
def ADD : Int := 1
/-- Enumerator `CMP`. -/
def CMP : Int := 2
/-- Enumerator `JE`. -/
def JE : Int := 3
/-- Enumerator `JMP`. -/
def JMP : Int := 4
/-- Enumerator `LD`. -/
def LD : Int := 5
/-- Enumerator `ST`. -/
def ST : Int := 6

/-- `struct instruction`; `type` holds the enumerator value (the decoder
starts it at `-1`). -/
structure instruction where
  line : Int
  type : Int
  reg1 : Int
  reg2 : Int
  immediate : Int
  is_immediate : Bool
deriving DecidableEq

/-- `struct local_memory`: the cell values and the occupancy flags. -/
structure local_memory where
  memory : Nat → Int
  occupied : Nat → Bool

/-- `init_localmem`: both arrays are zeroed. -/
def init_localmem : local_memory :=
  { memory := fun _ => 0, occupied := fun _ => false }

/-- An address is a valid index of `memory[LOCALMEMORY]` / `occupied[LOCALMEMORY]`. -/
def validAddr (address : Int) : Prop := 0 ≤ address ∧ address < LOCALMEMORY

instance (address : Int) : Decidable (validAddr address) :=
  inferInstanceAs (Decidable (0 ≤ address ∧ address < LOCALMEMORY))

/-- `load_memory`: returns the value read, the memory, `*cycle_count` and
`*local_hit` after the call. The source indexes `occupied[]` and `memory[]`
with `address` as it is, without a check; `none` stands for an index outside
the arrays. -/
def load_memory (mem : local_memory) (address : Int) (cycle_count local_hit : Int) :
    Option (Int × local_memory × Int × Int) :=
  if validAddr address then
    let a := address.toNat
    let cycle_count := wrap32 (cycle_count + (if mem.occupied a then 2 else 45))
    let local_hit := wrap32 (local_hit + (if mem.occupied a then 1 else 0))
    let mem := { mem with occupied := fun i => if i = a then true else mem.occupied i }
    some (mem.memory a, mem, cycle_count, local_hit)
  else none

/-- `store_memory`: returns the memory, `*cycle_count` and `*local_hit` after
the call. As in `load_memory` the source makes no check of `address`; `none`
stands for an index outside the arrays. -/
def store_memory (mem : local_memory) (address : Int) (value : Int)
    (cycle_count local_hit : Int) : Option (local_memory × Int × Int) :=
  if validAddr address then
    let a := address.toNat
    let cycle_count := wrap32 (cycle_count + (if mem.occupied a then 2 else 45))
    let local_hit := wrap32 (local_hit + (if mem.occupied a then 1 else 0))
    let mem := { mem with memory := fun i => if i = a then value else mem.memory i }
    let mem := { mem with occupied := fun i => if i = a then true else mem.occupied i }
    some (mem, cycle_count, local_hit)
  else none

/-! ## Register file -/

/-- An id is a valid index of `registers[7]`. -/
def validReg (id : Int) : Prop := 0 ≤ id ∧ id < NREGS

instance (id : Int) : Decidable (validReg id) :=
  inferInstanceAs (Decidable (0 ≤ id ∧ id < NREGS))

/-- Read of `registers[id]`; `none` stands for an index outside the array. -/
def readReg (registers : Nat → Int) (id : Int) : Option Int :=
  if validReg id then some (registers id.toNat) else none

/-- Assignment `registers[id] = value`; `none` stands for an index outside
the array. -/
def writeReg (registers : Nat → Int) (id : Int) (value : Int) : Option (Nat → Int) :=
  if validReg id then some (fun i => if i = id.toNat then value else registers i) else none

/-! ## The dispatch loop of `execute_assembly` -/

/-- The local variables of `execute_assembly`. -/
structure State where
  registers : Nat → Int
  localmemory : local_memory
  instruction_count : Int
  cycle_count : Int
  local_hit : Int
  LD_ST : Int
  ip : Nat
  cmp_flag : Bool

/-- The values of the locals when the `while` loop is first reached. -/
def init_state : State :=
  { registers := fun _ => 0
    localmemory := init_localmem
    instruction_count := 0
    cycle_count := 0
    local_hit := 0
    LD_ST := 0
    ip := 0
    cmp_flag := false }

/-- How one pass through the loop body ends. -/
inductive Outcome where
  /-- Control is back at the loop condition `ip < vec->size`. -/
  | next (s : State)
  /-- The `default:` case: `printf` and `exit(1)`; `s` holds the locals at
  the call of `exit`. -/
  | exit1 (s : State)
  /-- An array was indexed outside its bounds. -/
  | undef

/-- `bias = vec->data[0].line`. For an empty vector the C code reads an
uninitialised element; the loop body never runs then and the value is not
used, `0` stands for it. -/
def bias_of (vec : List instruction) : Int :=
  match vec with
  | [] => 0
  | i :: _ => i.line

/-- The index `ip = ins.reg1 - bias`: an `int` difference stored in a `size_t`. -/
def jump_target (bias : Int) (ins : instruction) : Nat :=
  toSizeT (wrap32 (ins.reg1 - bias))

/-- One pass through the body of the `while` loop for the fetched
instruction `ins`. `ip + 1` cannot wrap: the body runs with
`ip < vec->size`. -/
def loop_body (bias : Int) (ins : instruction) (s0 : State) : Outcome :=
  let s := { s0 with instruction_count := wrap32 (s0.instruction_count + 1) }
  if ins.type = MOV then
    match writeReg s.registers ins.reg1 ins.immediate with
    | none => .undef
    | some r =>
      .next { s with registers := r, cycle_count := wrap32 (s.cycle_count + 1), ip := s.ip + 1 }
  else if ins.type = ADD then
    match readReg s.registers ins.reg1,
        (if ins.is_immediate then some ins.immediate else readReg s.registers ins.reg2) with
    | some v1, some v2 =>
      match writeReg s.registers ins.reg1 (wrap32 (v1 + v2)) with
      | none => .undef
      | some r =>
        .next { s with registers := r, cycle_count := wrap32 (s.cycle_count + 1), ip := s.ip + 1 }
    | _, _ => .undef
  else if ins.type = CMP then
    match readReg s.registers ins.reg1, readReg s.registers ins.reg2 with
    | some v1, some v2 =>
      .next { s with cmp_flag := (if v1 = v2 then true else false),
                     cycle_count := wrap32 (s.cycle_count + 1), ip := s.ip + 1 }
    | _, _ => .undef
  else if ins.type = JE then
    if s.cmp_flag then
      .next { s with ip := jump_target bias ins, cycle_count := wrap32 (s.cycle_count + 1) }
    else
      .next { s with cycle_count := wrap32 (s.cycle_count + 1), ip := s.ip + 1 }
  else if ins.type = JMP then
    .next { s with ip := jump_target bias ins, cycle_count := wrap32 (s.cycle_count + 1) }
  else if ins.type = LD then
    match readReg s.registers ins.reg2 with
    | none => .undef
    | some address =>
      match load_memory s.localmemory address s.cycle_count s.local_hit with
      | none => .undef
      | some (v, mem, cycle_count, local_hit) =>
        match writeReg s.registers ins.reg1 v with
        | none => .undef
        | some r =>
          .next { s with registers := r, localmemory := mem, cycle_count := cycle_count,
                         local_hit := local_hit, LD_ST := wrap32 (s.LD_ST + 1), ip := s.ip + 1 }
  else if ins.type = ST then
    match readReg s.registers ins.reg2, readReg s.registers ins.reg1 with
    | some address, some value =>
      match store_memory s.localmemory address value s.cycle_count s.local_hit with
      | none => .undef
      | some (mem, cycle_count, local_hit) =>
        .next { s with localmemory := mem, cycle_count := cycle_count,
                       local_hit := local_hit, LD_ST := wrap32 (s.LD_ST + 1), ip := s.ip + 1 }
    | _, _ => .undef
  else .exit1 s

/-- The instruction fetched when the loop condition `ip < vec->size` holds. -/
def fetch (vec : List instruction) (s : State) : Option instruction := vec[s.ip]?

/-- One iteration of the `while` loop from a state in which the loop
condition holds; `none` when it does not hold. -/
def step (vec : List instruction) (s : State) : Option Outcome :=
  match fetch vec s with
  | none => none
  | some ins => some (loop_body (bias_of vec) ins s)

/-- How a run of `execute_assembly` ends. -/
inductive Result where
  /-- The loop condition failed; the four `printf` lines print the counters of `s`. -/
  | halted (s : State)
  /-- The run ended in `exit(1)`; nothing is printed after the error line. -/
  | fatal
  /-- An array was indexed outside its bounds. -/
  | undefined
  /-- The fuel ran out with the loop condition still true. -/
  | out_of_fuel

/-- The four counters printed at the end of `execute_assembly`, in the
order printed: executed instructions, clock cycles, hits, LD/ST. -/
def Result.stats : Result → Option (Int × Int × Int × Int)
  | .halted s => some (s.instruction_count, s.cycle_count, s.local_hit, s.LD_ST)
  | _ => none

/-- The `while` loop, at most `fuel` iterations. -/
def run_loop (vec : List instruction) : Nat → State → Result
  | fuel, s =>
    match fetch vec s with
    | none => .halted s
    | some ins =>
      match fuel with
      | 0 => .out_of_fuel
      | fuel + 1 =>
        match loop_body (bias_of vec) ins s with
        | .next s' => run_loop vec fuel s'
        | .exit1 _ => .fatal
        | .undef => .undefined

/-- `execute_assembly` with a bound on the number of loop iterations. -/
def execute_assembly (fuel : Nat) (vec : List instruction) : Result :=
  run_loop vec fuel init_state

/-- The state after exactly `n` complete loop iterations, when there are
that many. -/
def iterate (vec : List instruction) : Nat → State → Option State
  | 0, s => some s
  | n + 1, s =>
    match step vec s with
    | some (.next s') => iterate vec n s'
    | _ => none

/-- The instructions fetched by the first `n` loop iterations, in order. -/
def fetched (vec : List instruction) : Nat → State → List instruction
  | 0, _ => []
  | n + 1, s =>
    match fetch vec s with
    | none => []
    | some ins =>
      match loop_body (bias_of vec) ins s with
      | .next s' => ins :: fetched vec n s'
      | _ => [ins]

/-! ## Sequences of memory calls -/

/-- A call of one of the two memory functions. -/
inductive MemOp where
  | load (address : Int)
  | store (address value : Int)

/-- The address argument of a call. -/
def MemOp.address : MemOp → Int
  | .load a => a
  | .store a _ => a

/-- The memory together with the two counters that `load_memory` and
`store_memory` update through their pointer arguments. -/
structure MemState where
  mem : local_memory
  cycle_count : Int
  local_hit : Int

/-- A single call made on `m`. -/
def MemOp.call (op : MemOp) (m : MemState) : Option MemState :=
  match op with
  | .load a =>
    match load_memory m.mem a m.cycle_count m.local_hit with
    | none => none
    | some (_, mem, c, h) => some ⟨mem, c, h⟩
  | .store a v =>
    match store_memory m.mem a v m.cycle_count m.local_hit with
    | none => none
    | some (mem, c, h) => some ⟨mem, c, h⟩

/-- A sequence of calls, first call first. -/
def calls : List MemOp → MemState → Option MemState
  | [], m => some m
  | op :: ops, m =>
    match op.call m with
    | none => none
    | some m' => calls ops m'

/-- The value of the most recent `store_memory` to address `a` in a sequence
of calls (first call first), if there is one. -/
def last_store : List MemOp → Int → Option Int
  | [], _ => none
  | op :: ops, a =>
    match last_store ops a with
    | some v => some v
    | none =>
      match op with
      | .store b v => if b = a then some v else none
      | .load _ => none

/-- The value `load_memory` returns, when the access is defined. -/
def load_value (mem : local_memory) (address : Int) (cycle_count local_hit : Int) :
    Option Int :=
  (load_memory mem address cycle_count local_hit).map (fun r => r.1)

/-- The memory after the single call `store_memory(mem, 3, 7, ...)` on a fresh
memory. -/
def mem_after_store_3_7 : MemState :=
  { mem := { memory := fun i => if i = 3 then 7 else 0,
             occupied := fun i => if i = 3 then true else false }
    cycle_count := 45
    local_hit := 0 }

/-- The run ended in `exit(1)`. -/
def Result.isFatal : Result → Bool
  | .fatal => true
  | _ => false

/-- The run indexed an array outside its bounds. -/
def Result.isUndefined : Result → Bool
  | .undefined => true
  | _ => false

/-! ## Example programs and states -/

/-- Decoded form of `10 CMP R0, R0` / `11 JE 10`. -/
def prog_cmp_je : List instruction :=
  [⟨10, CMP, 0, 0, 0, false⟩, ⟨11, JE, 10, 0, 0, false⟩]

/-- The state of `prog_cmp_je` after its `CMP`. -/
def state_flag_set : State :=
  { init_state with instruction_count := 1, cycle_count := 1, ip := 1, cmp_flag := true }

/-- Decoded form of `10 MOV R1, 5` / `11 MOV R0, R1`. -/
def prog_mov_reg : List instruction :=
  [⟨10, MOV, 1, 0, 5, true⟩, ⟨11, MOV, 0, 1, 0, false⟩]

/-- The state of `prog_mov_reg` after its first `MOV`. -/
def state_r1_5 : State :=
  { init_state with registers := fun i => if i = 1 then 5 else 0,
                    instruction_count := 1, cycle_count := 1, ip := 1 }

/-- Decoded form of `1 MOV R0, 127` / `2 ADD R0, 1`. -/
def prog_add : List instruction :=
  [⟨1, MOV, 0, 0, 127, true⟩, ⟨2, ADD, 0, 0, 1, true⟩]

/-- The state of `prog_add` after its `MOV`. -/
def state_r0_127 : State :=
  { init_state with registers := fun i => if i = 0 then 127 else 0,
                    instruction_count := 1, cycle_count := 1, ip := 1 }

/-- Decoded form of the one-line program `10 JMP 99`. -/
def prog_jmp_out : List instruction :=
  [⟨10, JMP, 99, 0, 0, false⟩]

/-- Decoded form of the one-line program `10 JMP 5`. -/
def prog_jmp_back : List instruction :=
  [⟨10, JMP, 5, 0, 0, false⟩]

/-- Decoded form of `1 MOV R1, 300` / `2 LD R0, [R1]`. -/
def prog_ld_out : List instruction :=
  [⟨1, MOV, 1, 0, 300, true⟩, ⟨2, LD, 0, 1, 0, false⟩]

/-- Decoded form of `1 MOV R1, -1` / `2 ST [R1], R0`. -/
def prog_st_out : List instruction :=
  [⟨1, MOV, 1, 0, -1, true⟩, ⟨2, ST, 0, 1, 0, false⟩]

/-- The state of `prog_ld_out` after its `MOV`. -/
def state_r1_300 : State :=
  { init_state with registers := fun i => if i = 1 then 300 else 0,
                    instruction_count := 1, cycle_count := 1, ip := 1 }

/-- The instruction is an LD or an ST. -/
def is_ld_st (ins : instruction) : Bool := decide (ins.type = LD ∨ ins.type = ST)

/-- Decoded form of `1 MOV R0, 10` / `2 ST [R1], R0` / `3 LD R2, [R1]`. -/
def prog_st_ld : List instruction :=
  [⟨1, MOV, 0, 0, 10, true⟩, ⟨2, ST, 0, 1, 0, false⟩, ⟨3, LD, 2, 1, 0, false⟩]


/-! ## Memory accesses of a run -/

/-- The addresses passed to `load_memory` / `store_memory` by the first `n`
loop iterations, in order: the value of `registers[ins.reg2]` at each LD and
ST. -/
def accessed (vec : List instruction) : Nat → State → List Int
  | 0, _ => []
  | n + 1, s =>
    match fetch vec s with
    | none => []
    | some ins =>
      match loop_body (bias_of vec) ins s with
      | .next s' =>
        if is_ld_st ins then s.registers ins.reg2.toNat :: accessed vec n s'
        else accessed vec n s'
      | _ => []

/-- Number of cells of `occupied[256]` that are set. -/
def occ_count (mem : local_memory) : Nat :=
  ((Finset.range 256).filter (fun i => mem.occupied i = true)).card

/-- Decoded form of `1 MOV R0, 5` / `2 MOV R1, 3` / `3 ADD R0, R1` /
`4 CMP R0, R1`. -/
def prog_scenario_a : List instruction :=
  [⟨1, MOV, 0, 0, 5, true⟩, ⟨2, MOV, 1, 0, 3, true⟩, ⟨3, ADD, 0, 1, 0, false⟩,
   ⟨4, CMP, 0, 1, 0, false⟩]

/-- Decoded form of the one-line program `10 JMP 10`. -/
def prog_jmp_self : List instruction :=
  [⟨10, JMP, 10, 0, 0, false⟩]

/-- An instruction whose `type` is the decoder's initial value `-1`, followed
by `2 MOV R0, 5`. -/
def prog_unknown : List instruction :=
  [⟨1, -1, 0, 0, 0, false⟩, ⟨2, MOV, 0, 0, 5, true⟩]

/-! # Theorems -/

/-! ## Machine integers: lemmas -/

theorem wrap32_of_range {x : Int} (h1 : INT_MIN ≤ x) (h2 : x ≤ INT_MAX) : wrap32 x = x := by
  unfold INT_MIN at h1
  unfold INT_MAX at h2
  unfold wrap32
  omega

theorem wrap32_range (x : Int) : INT_MIN ≤ wrap32 x ∧ wrap32 x ≤ INT_MAX := by
  unfold INT_MIN INT_MAX wrap32
  omega

/-! ## Memory calls -/

theorem validAddr_toNat {a : Int} (h : validAddr a) : (a.toNat : Int) = a := by
  unfold validAddr at h
  omega

theorem call_some_valid {op : MemOp} {m m' : MemState} (h : op.call m = some m') :
    validAddr op.address := by
  cases op with
  | load a =>
    by_contra hv
    simp only [MemOp.address] at hv
    simp [MemOp.call, load_memory, hv] at h
  | store a v =>
    by_contra hv
    simp only [MemOp.address] at hv
    simp [MemOp.call, store_memory, hv] at h

theorem call_occupied {op : MemOp} {m m' : MemState} (h : op.call m = some m') (i : Nat) :
    m'.mem.occupied i = (m.mem.occupied i || decide (i = op.address.toNat)) := by
  have hv := call_some_valid h
  cases op with
  | load a =>
    simp only [MemOp.address] at hv
    simp only [MemOp.call, load_memory, hv, if_true] at h
    cases h
    by_cases hi : i = a.toNat <;> simp [hi, MemOp.address]
  | store a v =>
    simp only [MemOp.address] at hv
    simp only [MemOp.call, store_memory, hv, if_true] at h
    cases h
    by_cases hi : i = a.toNat <;> simp [hi, MemOp.address]

theorem calls_occupied {ops : List MemOp} {m m' : MemState} (h : calls ops m = some m')
    (i : Nat) :
    m'.mem.occupied i = true ↔
      (m.mem.occupied i = true ∨ (i : Int) ∈ ops.map MemOp.address) := by
  induction ops generalizing m with
  | nil =>
    simp only [calls, Option.some.injEq] at h
    subst h
    simp
  | cons op ops ih =>
    simp only [calls] at h
    cases hc : op.call m with
    | none => simp [hc] at h
    | some m1 =>
      rw [hc] at h
      have hv := validAddr_toNat (call_some_valid hc)
      rw [ih h, call_occupied hc i]
      simp only [Bool.or_eq_true, decide_eq_true_eq, List.map_cons, List.mem_cons]
      have : i = op.address.toNat ↔ (i : Int) = op.address := by omega
      rw [this]
      tauto

theorem call_counters {op : MemOp} {m : MemState} (hv : validAddr op.address) :
    ∃ m', op.call m = some m' ∧
      m'.cycle_count =
        wrap32 (m.cycle_count + (if m.mem.occupied op.address.toNat then 2 else 45)) ∧
      m'.local_hit =
        wrap32 (m.local_hit + (if m.mem.occupied op.address.toNat then 1 else 0)) := by
  cases op with
  | load a =>
    simp only [MemOp.address] at hv
    simp [MemOp.call, load_memory, hv, MemOp.address]
  | store a v =>
    simp only [MemOp.address] at hv
    simp [MemOp.call, store_memory, hv, MemOp.address]

theorem call_memory {op : MemOp} {m m' : MemState} (h : op.call m = some m') (i : Nat) :
    m'.mem.memory i =
      match op with
      | .load _ => m.mem.memory i
      | .store b v => if i = b.toNat then v else m.mem.memory i := by
  have hv := call_some_valid h
  cases op with
  | load a =>
    simp only [MemOp.address] at hv
    simp only [MemOp.call, load_memory, hv, if_true] at h
    cases h
    rfl
  | store a v =>
    simp only [MemOp.address] at hv
    simp only [MemOp.call, store_memory, hv, if_true] at h
    cases h
    rfl

theorem calls_memory {ops : List MemOp} {m m' : MemState} (h : calls ops m = some m')
    (i : Nat) :
    m'.mem.memory i = (last_store ops (i : Int)).getD (m.mem.memory i) := by
  induction ops generalizing m with
  | nil =>
    simp only [calls, Option.some.injEq] at h
    subst h
    simp [last_store]
  | cons op ops ih =>
    simp only [calls] at h
    cases hc : op.call m with
    | none => simp [hc] at h
    | some m1 =>
      rw [hc] at h
      have hv := validAddr_toNat (call_some_valid hc)
      rw [ih h, call_memory hc i]
      simp only [last_store]
      cases hl : last_store ops (i : Int) with
      | some v => simp
      | none =>
        cases op with
        | load a => simp
        | store b v =>
          simp only [MemOp.address] at hv
          have : i = b.toNat ↔ b = (i : Int) := by omega
          by_cases hb : b = (i : Int)
          · simp [hb]
          · have hn : ¬ i = b.toNat := fun hh => hb (this.mp hh)
            simp [hb, hn]

theorem load_value_eq {mem : local_memory} {a : Int} (hv : validAddr a) (c h : Int) :
    load_value mem a c h = some (mem.memory a.toNat) := by
  simp [load_value, load_memory, hv]

theorem last_store_none {ops : List MemOp} {a : Int} (h : ∀ v, MemOp.store a v ∉ ops) :
    last_store ops a = none := by
  induction ops with
  | nil => rfl
  | cons op ops ih =>
    have h1 : ∀ v, MemOp.store a v ∉ ops := fun v hv => h v (List.mem_cons_of_mem _ hv)
    simp only [last_store, ih h1]
    cases op with
    | load b => rfl
    | store b w =>
      by_cases hb : b = a
      · subst hb
        exact absurd (List.mem_cons_self _ _) (h w)
      · simp [hb]

theorem last_store_append {pre post : List MemOp} {a v : Int}
    (h : ∀ w, MemOp.store a w ∉ post) :
    last_store (pre ++ MemOp.store a v :: post) a = some v := by
  induction pre with
  | nil => simp [last_store, last_store_none h]
  | cons op pre ih => simp [last_store, ih]

/-! ## Claims on the memory model -/

/-- C1: after any sequence of `load_memory`/`store_memory` calls on a memory
set up by `init_localmem`, an access (load or store) to an address in
[0,255] that no earlier call touched adds 45 to the cycle counter and 0 to the
hit counter, and an access to an address that an earlier call (load or store)
touched adds 2 to the cycle counter and 1 to the hit counter; the counters are
`int`s and the sums are exact when they fit in an `int`. -/
theorem memory_timing_first_then_hit (ops : List MemOp) (c0 h0 : Int) (m : MemState)
    (hrun : calls ops ⟨init_localmem, c0, h0⟩ = some m)
    (op : MemOp) (ha : 0 ≤ op.address ∧ op.address ≤ 255)
    (c h : Int) (hc : INT_MIN ≤ c ∧ c ≤ INT_MAX) (hh : INT_MIN ≤ h ∧ h ≤ INT_MAX) :
    ∃ m', op.call ⟨m.mem, c, h⟩ = some m' ∧
      (op.address ∉ ops.map MemOp.address → c + 45 ≤ INT_MAX →
        m'.cycle_count = c + 45 ∧ m'.local_hit = h + 0) ∧
      (op.address ∈ ops.map MemOp.address → c + 2 ≤ INT_MAX → h + 1 ≤ INT_MAX →
        m'.cycle_count = c + 2 ∧ m'.local_hit = h + 1) := by
  have hv : validAddr op.address := ⟨ha.1, by unfold LOCALMEMORY; omega⟩
  obtain ⟨m', h1, h2, h3⟩ := call_counters (m := ⟨m.mem, c, h⟩) hv
  have hocc := calls_occupied hrun op.address.toNat
  rw [validAddr_toNat hv] at hocc
  simp only [init_localmem, Bool.false_eq_true, false_or] at hocc
  refine ⟨m', h1, ?_, ?_⟩
  · intro hn hc45
    have hf : m.mem.occupied op.address.toNat = false := by
      cases hb : m.mem.occupied op.address.toNat with
      | false => rfl
      | true => exact absurd (hocc.mp hb) hn
    rw [h2, h3]
    simp only [hf, Bool.false_eq_true, if_false]
    exact ⟨wrap32_of_range (by omega) hc45, wrap32_of_range (by omega) (by omega)⟩
  · intro hin hc2 hh1
    have ht : m.mem.occupied op.address.toNat = true := hocc.mpr hin
    rw [h2, h3]
    simp only [ht, if_true]
    exact ⟨wrap32_of_range (by omega) hc2, wrap32_of_range (by omega) hh1⟩

/-- Witness for C1: a load of address 3 after a store to address 3 costs 2
cycles and counts one hit. -/
theorem memory_timing_first_then_hit_witness :
    ∃ m', (MemOp.load 3).call ⟨mem_after_store_3_7.mem, 45, 0⟩ = some m' ∧
      m'.cycle_count = 45 + 2 ∧ m'.local_hit = 0 + 1 := by
  obtain ⟨m', h1, _, h3⟩ :=
    memory_timing_first_then_hit [MemOp.store 3 7] 0 0 mem_after_store_3_7 rfl
      (MemOp.load 3) (by decide) 45 0 (by decide) (by decide)
  exact ⟨m', h1, h3 (by simp [MemOp.address]) (by decide) (by decide)⟩

/-- C8: on a memory reached from `init_localmem` by any sequence of calls,
`load_memory` at an address `a` in [0,255] returns 0 when the sequence has no
`store_memory` to `a`, and the value of the last `store_memory` to `a`
otherwise; a further store to another address, or a further load of any
address, leaves the value returned for `a` as it was. -/
theorem load_returns_last_store (ops : List MemOp) (c0 h0 : Int) (m : MemState)
    (hrun : calls ops ⟨init_localmem, c0, h0⟩ = some m)
    (a : Int) (ha : 0 ≤ a ∧ a ≤ 255) (c h : Int) :
    ((∀ v, MemOp.store a v ∉ ops) → load_value m.mem a c h = some 0) ∧
    (∀ pre post v, ops = pre ++ MemOp.store a v :: post → (∀ w, MemOp.store a w ∉ post) →
      load_value m.mem a c h = some v) ∧
    (∀ b v m', b ≠ a → (MemOp.store b v).call m = some m' →
      load_value m'.mem a c h = load_value m.mem a c h) ∧
    (∀ b m', (MemOp.load b).call m = some m' →
      load_value m'.mem a c h = load_value m.mem a c h) := by
  have hv : validAddr a := ⟨ha.1, by unfold LOCALMEMORY; omega⟩
  have hmem := calls_memory hrun a.toNat
  rw [validAddr_toNat hv] at hmem
  simp only [init_localmem] at hmem
  refine ⟨?_, ?_, ?_, ?_⟩
  · intro hno
    rw [load_value_eq hv, hmem, last_store_none hno]
    rfl
  · intro pre post v hops hpost
    rw [load_value_eq hv, hmem, hops, last_store_append hpost]
    rfl
  · intro b v m' hba hcall
    have hvb := validAddr_toNat (call_some_valid hcall)
    simp only [MemOp.address] at hvb
    have hne : ¬ a.toNat = b.toNat := by
      have := validAddr_toNat hv
      omega
    rw [load_value_eq hv, load_value_eq hv, call_memory hcall a.toNat]
    simp [hne]
  · intro b m' hcall
    rw [load_value_eq hv, load_value_eq hv, call_memory hcall a.toNat]

/-- Witness for C8: after `store_memory(mem, 3, 7, ...)` on a fresh memory,
a load of address 3 returns 7. -/
theorem load_returns_last_store_witness :
    load_value mem_after_store_3_7.mem 3 45 0 = some 7 :=
  (load_returns_last_store [MemOp.store 3 7] 0 0 mem_after_store_3_7 rfl 3 (by decide)
    45 0).2.1 [] [] 7 rfl (by simp)

/-! ## Single steps of the dispatch loop -/

theorem loop_body_mov {bias : Int} {ins : instruction} {s : State} (ht : ins.type = MOV)
    (hr1 : validReg ins.reg1) :
    loop_body bias ins s = .next
      { s with instruction_count := wrap32 (s.instruction_count + 1),
               registers := fun i => if i = ins.reg1.toNat then ins.immediate else s.registers i,
               cycle_count := wrap32 (s.cycle_count + 1), ip := s.ip + 1 } := by
  simp only [loop_body, ht, writeReg, hr1, if_true]

theorem loop_body_add {bias : Int} {ins : instruction} {s : State} (ht : ins.type = ADD)
    (hr1 : validReg ins.reg1) (hr2 : validReg ins.reg2) :
    loop_body bias ins s = .next
      { s with instruction_count := wrap32 (s.instruction_count + 1),
               registers := fun i =>
                 if i = ins.reg1.toNat then
                   wrap32 (s.registers ins.reg1.toNat +
                     (if ins.is_immediate then ins.immediate else s.registers ins.reg2.toNat))
                 else s.registers i,
               cycle_count := wrap32 (s.cycle_count + 1), ip := s.ip + 1 } := by
  cases him : ins.is_immediate <;>
    simp only [loop_body, ht, readReg, writeReg, hr1, hr2, if_true, him] <;> rfl

theorem loop_body_cmp {bias : Int} {ins : instruction} {s : State} (ht : ins.type = CMP)
    (hr1 : validReg ins.reg1) (hr2 : validReg ins.reg2) :
    loop_body bias ins s = .next
      { s with instruction_count := wrap32 (s.instruction_count + 1),
               cmp_flag := decide (s.registers ins.reg1.toNat = s.registers ins.reg2.toNat),
               cycle_count := wrap32 (s.cycle_count + 1), ip := s.ip + 1 } := by
  simp only [loop_body, ht, readReg, hr1, hr2, if_true]
  by_cases h : s.registers ins.reg1.toNat = s.registers ins.reg2.toNat <;> simp [h] <;> rfl

theorem loop_body_je_taken {bias : Int} {ins : instruction} {s : State} (ht : ins.type = JE)
    (hflag : s.cmp_flag = true) :
    loop_body bias ins s = .next
      { s with instruction_count := wrap32 (s.instruction_count + 1),
               ip := jump_target bias ins, cycle_count := wrap32 (s.cycle_count + 1) } := by
  simp only [loop_body, ht, hflag]
  rfl

theorem loop_body_je_not_taken {bias : Int} {ins : instruction} {s : State}
    (ht : ins.type = JE) (hflag : s.cmp_flag = false) :
    loop_body bias ins s = .next
      { s with instruction_count := wrap32 (s.instruction_count + 1),
               cycle_count := wrap32 (s.cycle_count + 1), ip := s.ip + 1 } := by
  simp only [loop_body, ht, hflag]
  rfl

theorem loop_body_jmp {bias : Int} {ins : instruction} {s : State} (ht : ins.type = JMP) :
    loop_body bias ins s = .next
      { s with instruction_count := wrap32 (s.instruction_count + 1),
               ip := jump_target bias ins, cycle_count := wrap32 (s.cycle_count + 1) } := by
  simp only [loop_body, ht]
  rfl

theorem fetch_bias {vec : List instruction} {s : State} {ins first : instruction}
    {rest : List instruction} (_hf : fetch vec s = some ins) (hv : vec = first :: rest) :
    bias_of vec = first.line := by
  subst hv
  rfl

theorem toSizeT_of_nonneg {t : Int} (h0 : 0 ≤ t) (h1 : t ≤ INT_MAX) :
    ((toSizeT t : Nat) : Int) = t := by
  unfold INT_MAX at h1
  unfold toSizeT
  omega

/-- C2: a step whose instruction is JE moves to index + 1 when the flag is
false and to `ins.reg1 - bias` (the `int` difference stored in the `size_t`
index, `bias` the line of the first instruction) when the flag is true; it
adds 1 to the cycle counter and leaves the registers, the flag, the memory
cells, the occupancy flags, the hit counter and the LD/ST counter as they
were. -/
theorem je_step (vec : List instruction) (first : instruction) (rest : List instruction)
    (hvec : vec = first :: rest) (s : State) (ins : instruction)
    (hf : fetch vec s = some ins) (ht : ins.type = JE)
    (hc : INT_MIN ≤ s.cycle_count ∧ s.cycle_count < INT_MAX) :
    ∃ s', step vec s = some (.next s') ∧
      (s.cmp_flag = false → s'.ip = s.ip + 1) ∧
      (s.cmp_flag = true →
        s'.ip = toSizeT (wrap32 (ins.reg1 - first.line)) ∧
        (0 ≤ ins.reg1 - first.line → ins.reg1 - first.line ≤ INT_MAX →
          (s'.ip : Int) = ins.reg1 - first.line)) ∧
      s'.cycle_count = s.cycle_count + 1 ∧
      s'.registers = s.registers ∧ s'.cmp_flag = s.cmp_flag ∧
      s'.localmemory.memory = s.localmemory.memory ∧
      s'.localmemory.occupied = s.localmemory.occupied ∧
      s'.local_hit = s.local_hit ∧ s'.LD_ST = s.LD_ST := by
  have hb := fetch_bias hf hvec
  have hw : wrap32 (s.cycle_count + 1) = s.cycle_count + 1 :=
    wrap32_of_range (by omega) (by omega)
  cases hflag : s.cmp_flag with
  | false =>
    refine ⟨_, by simp only [step, hf, loop_body, ht, hflag]; rfl, ?_⟩
    simp [hw]
  | true =>
    refine ⟨_, by simp only [step, hf, loop_body, ht, hflag]; rfl, ?_⟩
    simp only [hw, hb, jump_target, true_and, and_true, Bool.true_eq_false, false_implies,
      forall_const]
    intro h0 h1
    have h2 : INT_MIN ≤ ins.reg1 - first.line := by unfold INT_MIN; omega
    rw [wrap32_of_range h2 h1]
    exact toSizeT_of_nonneg h0 h1

/-- Witness for C2: in `prog_cmp_je` the `JE 10` taken with the flag set goes
back to index 0 = 10 - 10. -/
theorem je_step_witness :
    ∃ s', step prog_cmp_je state_flag_set = some (.next s') ∧
      (s'.ip : Int) = 10 - 10 ∧ s'.cycle_count = 1 + 1 := by
  obtain ⟨s', h1, _, h3, h4, _⟩ :=
    je_step prog_cmp_je ⟨10, CMP, 0, 0, 0, false⟩ [⟨11, JE, 10, 0, 0, false⟩] rfl
      state_flag_set ⟨11, JE, 10, 0, 0, false⟩ rfl rfl (by decide)
  exact ⟨s', h1, (h3 rfl).2 (by decide) (by decide), h4⟩

/-- C3 fails on the code: the one-line program `10 JMP 99` (target index 89,
outside [0,1)) does not end in `exit(1)`; the loop is left and the four
counters are printed, and the same holds for `10 JMP 5` (target index -5). -/
theorem jump_out_of_range_counterexample :
    (execute_assembly 5 prog_jmp_out).isFatal = false ∧
    (execute_assembly 5 prog_jmp_out).stats = some (1, 1, 0, 0) ∧
    (execute_assembly 5 prog_jmp_back).isFatal = false ∧
    (execute_assembly 5 prog_jmp_back).stats = some (1, 1, 0, 0) := by
  refine ⟨rfl, rfl, rfl, rfl⟩

theorem fetch_none_of_le {vec : List instruction} {s : State} (h : vec.length ≤ s.ip) :
    fetch vec s = none := by
  unfold fetch
  exact List.getElem?_eq_none h

theorem run_loop_halted {vec : List instruction} {s : State} (h : fetch vec s = none)
    (fuel : Nat) : run_loop vec fuel s = .halted s := by
  unfold run_loop
  simp [h]

theorem run_loop_next {vec : List instruction} {s s' : State} {ins : instruction}
    (hf : fetch vec s = some ins) (hb : loop_body (bias_of vec) ins s = .next s')
    (fuel : Nat) : run_loop vec (fuel + 1) s = run_loop vec fuel s' := by
  conv => lhs; unfold run_loop
  simp [hf, hb]

theorem jump_target_outside {bias : Int} {ins : instruction} {n : Nat}
    (hn : n < 2 ^ 60)
    (hout : wrap32 (ins.reg1 - bias) < 0 ∨ (n : Int) ≤ wrap32 (ins.reg1 - bias)) :
    n ≤ jump_target bias ins := by
  have hr := wrap32_range (ins.reg1 - bias)
  unfold INT_MIN INT_MAX at hr
  unfold jump_target toSizeT
  have h60 : (2 : Nat) ^ 60 = 1152921504606846976 := by norm_num
  omega

/-- C3 as the code has it: a JMP, or a JE taken with the flag true, whose
`int` target `ins.reg1 - bias` is negative or at least the program size is
not an error: the converted index fails the loop condition `ip < size`, the
loop is left and the four counters are printed, with the jump counted as one
executed instruction and one cycle. The vector holds fewer than 2^60
instructions, as every array of 24-byte elements does. -/
theorem jump_out_of_range_halts (vec : List instruction) (first : instruction)
    (rest : List instruction) (hvec : vec = first :: rest) (hsize : vec.length < 2 ^ 60)
    (s : State) (ins : instruction) (hf : fetch vec s = some ins)
    (ht : ins.type = JMP ∨ (ins.type = JE ∧ s.cmp_flag = true))
    (hout : wrap32 (ins.reg1 - first.line) < 0 ∨
      (vec.length : Int) ≤ wrap32 (ins.reg1 - first.line))
    (hic : INT_MIN ≤ s.instruction_count ∧ s.instruction_count < INT_MAX)
    (hc : INT_MIN ≤ s.cycle_count ∧ s.cycle_count < INT_MAX) (fuel : Nat) :
    (run_loop vec (fuel + 1) s).isFatal = false ∧
    (run_loop vec (fuel + 1) s).stats =
      some (s.instruction_count + 1, s.cycle_count + 1, s.local_hit, s.LD_ST) := by
  have hb := fetch_bias hf hvec
  rw [← hb] at hout
  have hge := jump_target_outside hsize hout
  have hw1 : wrap32 (s.instruction_count + 1) = s.instruction_count + 1 :=
    wrap32_of_range (by omega) (by omega)
  have hw2 : wrap32 (s.cycle_count + 1) = s.cycle_count + 1 :=
    wrap32_of_range (by omega) (by omega)
  have key : ∃ s', loop_body (bias_of vec) ins s = .next s' ∧
      s'.ip = jump_target (bias_of vec) ins ∧
      s'.instruction_count = s.instruction_count + 1 ∧
      s'.cycle_count = s.cycle_count + 1 ∧ s'.local_hit = s.local_hit ∧
      s'.LD_ST = s.LD_ST := by
    rcases ht with ht | ⟨ht, hflag⟩
    · exact ⟨_, loop_body_jmp ht, rfl, hw1, hw2, rfl, rfl⟩
    · exact ⟨_, loop_body_je_taken ht hflag, rfl, hw1, hw2, rfl, rfl⟩
  obtain ⟨s', hs', hip, h1, h2, h3, h4⟩ := key
  have hnone : fetch vec s' = none := fetch_none_of_le (by rw [hip]; exact hge)
  rw [run_loop_next hf hs' fuel, run_loop_halted hnone fuel]
  simp [Result.isFatal, Result.stats, h1, h2, h3, h4]

/-- Witness for the amended C3: `10 JMP 99` run from the initial state. -/
theorem jump_out_of_range_halts_witness :
    (run_loop prog_jmp_out (4 + 1) init_state).isFatal = false ∧
    (run_loop prog_jmp_out (4 + 1) init_state).stats =
      some (init_state.instruction_count + 1, init_state.cycle_count + 1,
        init_state.local_hit, init_state.LD_ST) :=
  jump_out_of_range_halts prog_jmp_out ⟨10, JMP, 99, 0, 0, false⟩ [] rfl (by decide)
    init_state ⟨10, JMP, 99, 0, 0, false⟩ rfl (Or.inl rfl) (Or.inr (by decide))
    (by decide) (by decide) 4

/-- C4 fails on the code: `MOV R1, 300` / `LD R0, [R1]` and `MOV R1, -1` /
`ST [R1], R0` do not end in `exit(1)`; `load_memory` and `store_memory` index
`occupied[]` and `memory[]` with the address as it is. -/
theorem address_out_of_range_counterexample :
    (execute_assembly 5 prog_ld_out).isFatal = false ∧
    (execute_assembly 5 prog_ld_out).isUndefined = true ∧
    (execute_assembly 5 prog_st_out).isFatal = false ∧
    (execute_assembly 5 prog_st_out).isUndefined = true := by
  refine ⟨rfl, rfl, rfl, rfl⟩

/-- C4 as the code has it: an LD or ST (register ids in [0,7)) whose address
register holds a negative value or a value of 256 or more makes no address
check and raises no error; `load_memory` / `store_memory` index the arrays
outside their bounds, which the model reports as `Outcome.undef`. -/
theorem address_out_of_range_unchecked (vec : List instruction) (s : State)
    (ins : instruction) (hf : fetch vec s = some ins) (ht : ins.type = LD ∨ ins.type = ST)
    (hr1 : 0 ≤ ins.reg1 ∧ ins.reg1 < 7) (hr2 : 0 ≤ ins.reg2 ∧ ins.reg2 < 7)
    (hout : s.registers ins.reg2.toNat < 0 ∨ 256 ≤ s.registers ins.reg2.toNat)
    (fuel : Nat) :
    step vec s = some .undef ∧
    run_loop vec (fuel + 1) s = .undefined := by
  have hv1 : validReg ins.reg1 := hr1
  have hv2 : validReg ins.reg2 := hr2
  have hna : ¬ validAddr (s.registers ins.reg2.toNat) := by
    unfold validAddr LOCALMEMORY
    omega
  have key : loop_body (bias_of vec) ins s = .undef := by
    rcases ht with ht | ht
    · simp only [loop_body, ht, readReg, hv2, if_true, load_memory, hna, if_false]
      rfl
    · simp only [loop_body, ht, readReg, hv1, hv2, if_true, store_memory, hna, if_false]
      rfl
  refine ⟨by simp only [step, hf, key], ?_⟩
  conv => lhs; unfold run_loop
  simp [hf, key]

/-- Witness for the amended C4: the `LD R0, [R1]` of `prog_ld_out` with
R1 = 300. -/
theorem address_out_of_range_unchecked_witness :
    step prog_ld_out state_r1_300 = some .undef ∧
    run_loop prog_ld_out (0 + 1) state_r1_300 = .undefined :=
  address_out_of_range_unchecked prog_ld_out state_r1_300 ⟨2, LD, 0, 1, 0, false⟩ rfl
    (Or.inl rfl) (by decide) (by decide) (Or.inr (by decide)) 0

theorem step_of_fetch {vec : List instruction} {s : State} {ins : instruction}
    (hf : fetch vec s = some ins) : step vec s = some (loop_body (bias_of vec) ins s) := by
  simp only [step, hf]

/-- C5 fails on the code: in `MOV R1, 5` / `MOV R0, R1` the second MOV
(register form, `is_immediate` false, `reg2` = 1) runs with R1 = 5 and leaves
R0 = 0, the value of its `immediate` field, not 5. -/
theorem mov_register_form_counterexample :
    fetched prog_mov_reg 2 init_state =
      [⟨10, MOV, 1, 0, 5, true⟩, ⟨11, MOV, 0, 1, 0, false⟩] ∧
    (iterate prog_mov_reg 1 init_state).map (fun s => s.registers 1) = some 5 ∧
    (iterate prog_mov_reg 2 init_state).map (fun s => s.registers 0) = some 0 ∧
    (iterate prog_mov_reg 2 init_state).map (fun s => s.registers 1) = some 5 := by
  refine ⟨rfl, rfl, rfl, rfl⟩

/-- C5 as the code has it: a step whose instruction is MOV with destination id
in [0,7) sets `registers[ins.reg1]` to `ins.immediate`, whether
`is_immediate` is true or false (`registers[ins.reg2]` is not read); every
other register, the flag and the memory are unchanged, the cycle counter grows
by 1 and the index by 1. -/
theorem mov_step (vec : List instruction) (s : State) (ins : instruction)
    (hf : fetch vec s = some ins) (ht : ins.type = MOV)
    (hr1 : 0 ≤ ins.reg1 ∧ ins.reg1 < 7)
    (hc : INT_MIN ≤ s.cycle_count ∧ s.cycle_count < INT_MAX) :
    ∃ s', step vec s = some (.next s') ∧
      s'.registers ins.reg1.toNat = ins.immediate ∧
      (∀ i, i ≠ ins.reg1.toNat → s'.registers i = s.registers i) ∧
      s'.cmp_flag = s.cmp_flag ∧
      s'.localmemory.memory = s.localmemory.memory ∧
      s'.localmemory.occupied = s.localmemory.occupied ∧
      s'.cycle_count = s.cycle_count + 1 ∧ s'.ip = s.ip + 1 := by
  have hw : wrap32 (s.cycle_count + 1) = s.cycle_count + 1 :=
    wrap32_of_range (by omega) (by omega)
  refine ⟨_, by rw [step_of_fetch hf, loop_body_mov ht hr1], ?_⟩
  refine ⟨by simp, ?_, rfl, rfl, rfl, hw, rfl⟩
  intro i hi
  simp [hi]

/-- Witness for the amended C5: the register-form `MOV R0, R1` of
`prog_mov_reg` with R1 = 5 writes its `immediate` field, 0, to R0. -/
theorem mov_step_witness :
    ∃ s', step prog_mov_reg state_r1_5 = some (.next s') ∧
      s'.registers 0 = 0 ∧ s'.registers 1 = 5 ∧ s'.cycle_count = 1 + 1 ∧ s'.ip = 1 + 1 := by
  obtain ⟨s', h1, h2, h3, _, _, _, h7, h8⟩ :=
    mov_step prog_mov_reg state_r1_5 ⟨11, MOV, 0, 1, 0, false⟩ rfl rfl (by decide)
      (by decide)
  exact ⟨s', h1, h2, h3 1 (by decide), h7, h8⟩

/-- C6: a step whose instruction is ADD with register ids in [0,7) sets
`registers[ins.reg1]` to its old value plus `ins.immediate` (immediate form)
or plus the old value of `registers[ins.reg2]` (register form), the exact
integer sum whenever that sum fits in a 32-bit signed `int` (nothing is
clamped to [-128,127]); every other register, the flag and the memory are
unchanged, the cycle counter grows by 1 and the index by 1. -/
theorem add_step (vec : List instruction) (s : State) (ins : instruction)
    (hf : fetch vec s = some ins) (ht : ins.type = ADD)
    (hr1 : 0 ≤ ins.reg1 ∧ ins.reg1 < 7) (hr2 : 0 ≤ ins.reg2 ∧ ins.reg2 < 7)
    (hc : INT_MIN ≤ s.cycle_count ∧ s.cycle_count < INT_MAX) :
    ∃ s', step vec s = some (.next s') ∧
      (ins.is_immediate = true →
        INT_MIN ≤ s.registers ins.reg1.toNat + ins.immediate →
        s.registers ins.reg1.toNat + ins.immediate ≤ INT_MAX →
        s'.registers ins.reg1.toNat = s.registers ins.reg1.toNat + ins.immediate) ∧
      (ins.is_immediate = false →
        INT_MIN ≤ s.registers ins.reg1.toNat + s.registers ins.reg2.toNat →
        s.registers ins.reg1.toNat + s.registers ins.reg2.toNat ≤ INT_MAX →
        s'.registers ins.reg1.toNat =
          s.registers ins.reg1.toNat + s.registers ins.reg2.toNat) ∧
      (∀ i, i ≠ ins.reg1.toNat → s'.registers i = s.registers i) ∧
      s'.cmp_flag = s.cmp_flag ∧
      s'.localmemory.memory = s.localmemory.memory ∧
      s'.localmemory.occupied = s.localmemory.occupied ∧
      s'.cycle_count = s.cycle_count + 1 ∧ s'.ip = s.ip + 1 := by
  have hw : wrap32 (s.cycle_count + 1) = s.cycle_count + 1 :=
    wrap32_of_range (by omega) (by omega)
  refine ⟨_, by rw [step_of_fetch hf, loop_body_add ht hr1 hr2], ?_⟩
  refine ⟨?_, ?_, ?_, rfl, rfl, rfl, hw, rfl⟩
  · intro him h1 h2
    simp [him, wrap32_of_range h1 h2]
  · intro him h1 h2
    simp [him, wrap32_of_range h1 h2]
  · intro i hi
    simp [hi]

/-- Witness for C6: `ADD R0, 1` with R0 = 127 gives R0 = 128. -/
theorem add_step_witness :
    ∃ s', step prog_add state_r0_127 = some (.next s') ∧
      s'.registers 0 = 127 + 1 ∧ s'.cycle_count = 1 + 1 ∧ s'.ip = 1 + 1 := by
  obtain ⟨s', h1, h2, _, _, _, _, _, h7, h8⟩ :=
    add_step prog_add state_r0_127 ⟨2, ADD, 0, 0, 1, true⟩ rfl rfl (by decide) (by decide)
      (by decide)
  exact ⟨s', h1, h2 rfl (by decide) (by decide), h7, h8⟩

/-- C7: a step whose instruction is CMP with register ids in [0,7) sets the
comparison flag to true exactly when `registers[ins.reg1]` equals
`registers[ins.reg2]`, whatever the flag was before; the registers and the
memory are unchanged, the cycle counter grows by 1 and the index by 1. The
flag is false in the initial state of a run. -/
theorem cmp_step (vec : List instruction) (s : State) (ins : instruction)
    (hf : fetch vec s = some ins) (ht : ins.type = CMP)
    (hr1 : 0 ≤ ins.reg1 ∧ ins.reg1 < 7) (hr2 : 0 ≤ ins.reg2 ∧ ins.reg2 < 7)
    (hc : INT_MIN ≤ s.cycle_count ∧ s.cycle_count < INT_MAX) :
    init_state.cmp_flag = false ∧
    ∃ s', step vec s = some (.next s') ∧
      (s'.cmp_flag = true ↔ s.registers ins.reg1.toNat = s.registers ins.reg2.toNat) ∧
      s'.registers = s.registers ∧
      s'.localmemory.memory = s.localmemory.memory ∧
      s'.localmemory.occupied = s.localmemory.occupied ∧
      s'.cycle_count = s.cycle_count + 1 ∧ s'.ip = s.ip + 1 := by
  have hw : wrap32 (s.cycle_count + 1) = s.cycle_count + 1 :=
    wrap32_of_range (by omega) (by omega)
  refine ⟨rfl, _, by rw [step_of_fetch hf, loop_body_cmp ht hr1 hr2], ?_⟩
  exact ⟨by simp, rfl, rfl, rfl, hw, rfl⟩

/-- Witness for C7: `CMP R0, R0` in the initial state sets the flag. -/
theorem cmp_step_witness :
    init_state.cmp_flag = false ∧
    ∃ s', step prog_cmp_je init_state = some (.next s') ∧
      (s'.cmp_flag = true ↔ init_state.registers 0 = init_state.registers 0) ∧
      s'.cycle_count = 0 + 1 ∧ s'.ip = 0 + 1 := by
  obtain ⟨h0, s', h1, h2, _, _, _, h6, h7⟩ :=
    cmp_step prog_cmp_je init_state ⟨10, CMP, 0, 0, 0, false⟩ rfl rfl (by decide)
      (by decide) (by decide)
  exact ⟨h0, s', h1, h2, h6, h7⟩

/-! ## Runs -/

theorem wrap32_add_wrap32 (a b : Int) : wrap32 (wrap32 a + b) = wrap32 (a + b) := by
  unfold wrap32
  omega

theorem loop_body_LD_ST {bias : Int} {ins : instruction} {s s' : State}
    (h : loop_body bias ins s = .next s') :
    s'.LD_ST = if is_ld_st ins then wrap32 (s.LD_ST + 1) else s.LD_ST := by
  unfold loop_body at h
  simp only at h
  split_ifs at h with h1 h2 h3 h4 h5 h6 h7 h8
  all_goals (try (split at h))
  all_goals (try (split at h))
  all_goals (try (split at h))
  all_goals (try (cases h))
  all_goals (simp [is_ld_st, *, MOV, ADD, CMP, JE, JMP, LD, ST])

theorem loop_body_alu (bias : Int) {ins : instruction} (s : State)
    (ht : ins.type = MOV ∨ ins.type = ADD ∨ ins.type = CMP)
    (hr1 : validReg ins.reg1) (hr2 : validReg ins.reg2) :
    ∃ s', loop_body bias ins s = .next s' ∧ s'.ip = s.ip + 1 ∧
      s'.instruction_count = wrap32 (s.instruction_count + 1) ∧
      s'.cycle_count = wrap32 (s.cycle_count + 1) ∧
      s'.local_hit = s.local_hit ∧ s'.LD_ST = s.LD_ST := by
  rcases ht with ht | ht | ht
  · exact ⟨_, loop_body_mov ht hr1, rfl, rfl, rfl, rfl, rfl⟩
  · exact ⟨_, loop_body_add ht hr1 hr2, rfl, rfl, rfl, rfl, rfl⟩
  · exact ⟨_, loop_body_cmp ht hr1 hr2, rfl, rfl, rfl, rfl, rfl⟩

theorem fetch_some_of_lt (vec : List instruction) (s : State) (h : s.ip < vec.length) :
    ∃ ins, fetch vec s = some ins ∧ ins ∈ vec := by
  refine ⟨vec[s.ip], ?_, List.getElem_mem h⟩
  unfold fetch
  exact List.getElem?_eq_getElem h

theorem wrap32_idem (a : Int) : wrap32 (wrap32 a) = wrap32 a := by
  unfold wrap32
  omega

theorem run_loop_alu (vec : List instruction)
    (hops : ∀ ins ∈ vec, (ins.type = MOV ∨ ins.type = ADD ∨ ins.type = CMP) ∧
      validReg ins.reg1 ∧ validReg ins.reg2) :
    ∀ (d : Nat) (s : State) (fuel : Nat), s.ip + d = vec.length → d ≤ fuel →
      wrap32 s.instruction_count = s.instruction_count →
      wrap32 s.cycle_count = s.cycle_count →
      ∃ s', run_loop vec fuel s = .halted s' ∧
        s'.instruction_count = wrap32 (s.instruction_count + d) ∧
        s'.cycle_count = wrap32 (s.cycle_count + d) ∧
        s'.local_hit = s.local_hit ∧ s'.LD_ST = s.LD_ST := by
  intro d
  induction d with
  | zero =>
    intro s fuel hip _ hic hc
    have hnone : fetch vec s = none := fetch_none_of_le (by omega)
    refine ⟨s, run_loop_halted hnone fuel, ?_, ?_, rfl, rfl⟩
    · simp [hic]
    · simp [hc]
  | succ d ih =>
    intro s fuel hip hfuel _ _
    obtain ⟨ins, hf, hmem⟩ := fetch_some_of_lt vec s (by omega)
    obtain ⟨ht, hr1, hr2⟩ := hops ins hmem
    obtain ⟨s1, hb, h1, h2, h3, h4, h5⟩ :=
      loop_body_alu (bias_of vec) s ht hr1 hr2
    obtain ⟨fuel1, rfl⟩ : ∃ f, fuel = f + 1 := ⟨fuel - 1, by omega⟩
    obtain ⟨s', hrun, k1, k2, k3, k4⟩ :=
      ih s1 fuel1 (by omega) (by omega) (by rw [h2, wrap32_idem]) (by rw [h3, wrap32_idem])
    refine ⟨s', by rw [run_loop_next hf hb, hrun], ?_, ?_, by rw [k3, h4], by rw [k4, h5]⟩
    · rw [k1, h2, wrap32_add_wrap32]
      congr 1
      push_cast
      ring
    · rw [k2, h3, wrap32_add_wrap32]
      congr 1
      push_cast
      ring

/-- C9: a program made only of MOV, ADD and CMP instructions (register ids in
[0,7)) halts normally once the fuel covers its length; the reported cycle
count equals the reported executed-instruction count, which is the program
length (as a 32-bit `int`, so the length itself when it is at most
`INT_MAX`), and the hit count and the LD/ST count are 0. -/
theorem alu_only_run (vec : List instruction)
    (hops : ∀ ins ∈ vec, (ins.type = MOV ∨ ins.type = ADD ∨ ins.type = CMP) ∧
      (0 ≤ ins.reg1 ∧ ins.reg1 < 7) ∧ (0 ≤ ins.reg2 ∧ ins.reg2 < 7))
    (fuel : Nat) (hfuel : vec.length ≤ fuel) :
    (∃ s, execute_assembly fuel vec = .halted s) ∧
    (execute_assembly fuel vec).stats =
      some (wrap32 vec.length, wrap32 vec.length, 0, 0) ∧
    ((vec.length : Int) ≤ INT_MAX →
      (execute_assembly fuel vec).stats = some ((vec.length : Int), (vec.length : Int), 0, 0)) := by
  obtain ⟨s', hrun, k1, k2, k3, k4⟩ :=
    run_loop_alu vec hops vec.length init_state fuel (by simp [init_state]) hfuel rfl rfl
  have hst : (execute_assembly fuel vec).stats =
      some (wrap32 vec.length, wrap32 vec.length, 0, 0) := by
    unfold execute_assembly
    rw [hrun]
    simp only [Result.stats, k1, k2, k3, k4]
    simp [init_state]
  refine ⟨⟨s', hrun⟩, hst, ?_⟩
  intro hle
  rw [hst, wrap32_of_range (by unfold INT_MIN; omega) hle]

/-- Witness for C9: the two-instruction program `MOV R0, 127` / `ADD R0, 1`. -/
theorem alu_only_run_witness :
    (∃ s, execute_assembly 2 prog_add = .halted s) ∧
    (execute_assembly 2 prog_add).stats = some (2, 2, 0, 0) := by
  obtain ⟨h1, _, h3⟩ := alu_only_run prog_add (by decide) 2 (by decide)
  exact ⟨h1, h3 (by decide)⟩

theorem iterate_LD_ST (vec : List instruction) :
    ∀ (n : Nat) (s s' : State), iterate vec n s = some s' →
      wrap32 s.LD_ST = s.LD_ST →
      (fetched vec n s).length = n ∧
      s'.LD_ST = wrap32 (s.LD_ST + ((fetched vec n s).countP is_ld_st : Nat)) := by
  intro n
  induction n with
  | zero =>
    intro s s' h hw
    simp only [iterate, Option.some.injEq] at h
    subst h
    simp [fetched, hw]
  | succ n ih =>
    intro s s' h hw
    simp only [iterate, step] at h
    cases hf : fetch vec s with
    | none => simp [hf] at h
    | some ins =>
      simp only [hf] at h
      cases hb : loop_body (bias_of vec) ins s with
      | exit1 _ => simp [hb] at h
      | undef => simp [hb] at h
      | next s1 =>
        simp only [hb] at h
        have h1 := loop_body_LD_ST hb
        have hw1 : wrap32 s1.LD_ST = s1.LD_ST := by
          rw [h1]
          split
          · exact wrap32_idem _
          · exact hw
        obtain ⟨k1, k2⟩ := ih s1 s' h hw1
        simp only [fetched, hf, hb, List.length_cons, k1, true_and]
        rw [k2, h1, List.countP_cons]
        cases hl : is_ld_st ins with
        | true =>
          simp only [if_true, wrap32_add_wrap32]
          congr 1
          push_cast
          ring
        | false => simp

/-- C10: after any number of complete loop iterations from the initial
state, `LD_ST` is the number of LD and ST instructions among the instructions
those iterations fetched (one per iteration, so an instruction run k times
counts k times), as a 32-bit `int`, so that number itself while it is at most
`INT_MAX`; an iteration whose instruction is neither LD nor ST leaves `LD_ST`
as it was. -/
theorem ld_st_counts_executions (vec : List instruction) (n : Nat) (s' : State)
    (hrun : iterate vec n init_state = some s') :
    (fetched vec n init_state).length = n ∧
    s'.LD_ST = wrap32 ((fetched vec n init_state).countP is_ld_st : Nat) ∧
    ((((fetched vec n init_state).countP is_ld_st : Nat) : Int) ≤ INT_MAX →
      s'.LD_ST = ((fetched vec n init_state).countP is_ld_st : Nat)) ∧
    (∀ (s t : State) (ins : instruction), fetch vec s = some ins →
      ins.type ≠ LD → ins.type ≠ ST → step vec s = some (.next t) → t.LD_ST = s.LD_ST) := by
  obtain ⟨k1, k2⟩ := iterate_LD_ST vec n init_state s' hrun rfl
  have k3 : s'.LD_ST = wrap32 ((fetched vec n init_state).countP is_ld_st : Nat) := by
    rw [k2]
    simp [init_state]
  refine ⟨k1, k3, ?_, ?_⟩
  · intro hle
    rw [k3, wrap32_of_range (by unfold INT_MIN; omega) hle]
  · intro s t ins hf h1 h2 hstep
    rw [step_of_fetch hf] at hstep
    have hb : loop_body (bias_of vec) ins s = .next t := by
      simpa using hstep
    rw [loop_body_LD_ST hb]
    simp [is_ld_st, h1, h2]

/-- Witness for C10: `MOV R0, 10` / `ST [R1], R0` / `LD R2, [R1]` run for three
iterations executes two LD/ST instructions. -/
theorem ld_st_counts_executions_witness :
    ∃ s', iterate prog_st_ld 3 init_state = some s' ∧ s'.LD_ST = 2 := by
  have hsome : (iterate prog_st_ld 3 init_state).isSome = true := rfl
  cases h : iterate prog_st_ld 3 init_state with
  | none =>
    rw [h] at hsome
    exact absurd hsome (by simp)
  | some s' =>
    exact ⟨s', rfl, ((ld_st_counts_executions prog_st_ld 3 s' h).2.2.1 (by decide)).trans
      (by decide)⟩

/-! ## Counters along a run -/

theorem readReg_some {r : Nat → Int} {id v : Int} (h : readReg r id = some v) :
    validReg id ∧ v = r id.toNat := by
  unfold readReg at h
  split_ifs at h with hv
  simp only [Option.some.injEq] at h
  exact ⟨hv, h.symm⟩

theorem load_memory_some {mem mem' : local_memory} {a c h v c' h' : Int}
    (hl : load_memory mem a c h = some (v, mem', c', h')) :
    validAddr a ∧ v = mem.memory a.toNat ∧
      c' = wrap32 (c + (if mem.occupied a.toNat then 2 else 45)) ∧
      h' = wrap32 (h + (if mem.occupied a.toNat then 1 else 0)) ∧
      mem'.memory = mem.memory ∧
      mem'.occupied = fun i => if i = a.toNat then true else mem.occupied i := by
  unfold load_memory at hl
  split_ifs at hl with hv
  simp only [Option.some.injEq, Prod.mk.injEq] at hl
  obtain ⟨h1, h2, h3, h4⟩ := hl
  subst h2
  exact ⟨hv, h1.symm, h3.symm, h4.symm, rfl, rfl⟩

theorem store_memory_some {mem mem' : local_memory} {a value c h c' h' : Int}
    (hl : store_memory mem a value c h = some (mem', c', h')) :
    validAddr a ∧
      c' = wrap32 (c + (if mem.occupied a.toNat then 2 else 45)) ∧
      h' = wrap32 (h + (if mem.occupied a.toNat then 1 else 0)) ∧
      mem'.memory = (fun i => if i = a.toNat then value else mem.memory i) ∧
      mem'.occupied = fun i => if i = a.toNat then true else mem.occupied i := by
  unfold store_memory at hl
  split_ifs at hl with hv
  simp only [Option.some.injEq, Prod.mk.injEq] at hl
  obtain ⟨h2, h3, h4⟩ := hl
  subst h2
  exact ⟨hv, h3.symm, h4.symm, rfl, rfl⟩

theorem loop_body_cases {bias : Int} {ins : instruction} {s s' : State}
    (h : loop_body bias ins s = .next s') :
    s'.instruction_count = wrap32 (s.instruction_count + 1) ∧
    ((is_ld_st ins = false ∧ s'.cycle_count = wrap32 (s.cycle_count + 1) ∧
        s'.local_hit = s.local_hit ∧ s'.LD_ST = s.LD_ST ∧
        s'.localmemory.occupied = s.localmemory.occupied) ∨
     (is_ld_st ins = true ∧ validAddr (s.registers ins.reg2.toNat) ∧
        s'.cycle_count = wrap32 (s.cycle_count +
          (if s.localmemory.occupied (s.registers ins.reg2.toNat).toNat then 2 else 45)) ∧
        s'.local_hit = wrap32 (s.local_hit +
          (if s.localmemory.occupied (s.registers ins.reg2.toNat).toNat then 1 else 0)) ∧
        s'.LD_ST = wrap32 (s.LD_ST + 1) ∧
        s'.localmemory.occupied =
          fun i => if i = (s.registers ins.reg2.toNat).toNat then true
            else s.localmemory.occupied i)) := by
  unfold loop_body at h
  simp only at h
  split_ifs at h with h1 h2 h3 h4 h5 h6 h7 h8
  all_goals (try (split at h))
  all_goals (try (split at h))
  all_goals (try (split at h))
  all_goals (try (cases h))
  all_goals (try (simp [is_ld_st, *, MOV, ADD, CMP, JE, JMP, LD, ST]; done))
  · have hr := readReg_some (by assumption : readReg s.registers ins.reg2 = some _)
    obtain ⟨_, rfl⟩ := hr
    obtain ⟨k1, _, k3, k4, _, k6⟩ := load_memory_some (by assumption)
    refine ⟨rfl, Or.inr ⟨by simp [is_ld_st, h8], k1, k3, k4, rfl, k6⟩⟩
  · have hr := readReg_some (by assumption : readReg s.registers ins.reg2 = some _)
    obtain ⟨_, rfl⟩ := hr
    obtain ⟨k1, k3, k4, _, k6⟩ := store_memory_some (by assumption)
    refine ⟨rfl, Or.inr ⟨by simp [is_ld_st, *], k1, k3, k4, rfl, k6⟩⟩

theorem iterate_succ_last (vec : List instruction) :
    ∀ (n : Nat) (s t : State), iterate vec (n + 1) s = some t ↔
      ∃ u, iterate vec n s = some u ∧ step vec u = some (.next t) := by
  intro n
  induction n with
  | zero =>
    intro s t
    simp only [iterate]
    constructor
    · intro h
      refine ⟨s, rfl, ?_⟩
      cases hs : step vec s with
      | none => simp [hs] at h
      | some o =>
        cases o with
        | next s1 =>
          simp only [hs, Option.some.injEq] at h
          rw [h]
        | exit1 _ => simp [hs] at h
        | undef => simp [hs] at h
    · rintro ⟨u, hu, hst⟩
      simp only [Option.some.injEq] at hu
      subst hu
      simp [hst]
  | succ n ih =>
    intro s t
    constructor
    · intro h
      rw [iterate] at h
      cases hs : step vec s with
      | none => simp [hs] at h
      | some o =>
        cases o with
        | next s1 =>
          simp only [hs] at h
          obtain ⟨u, hu, hst⟩ := (ih s1 t).mp h
          refine ⟨u, ?_, hst⟩
          rw [iterate]
          simp only [hs]
          exact hu
        | exit1 _ => simp [hs] at h
        | undef => simp [hs] at h
    · rintro ⟨u, hu, hst⟩
      rw [iterate] at hu
      rw [iterate]
      cases hs : step vec s with
      | none => simp [hs] at hu
      | some o =>
        cases o with
        | next s1 =>
          simp only [hs] at hu ⊢
          exact (ih s1 t).mpr ⟨u, hu, hst⟩
        | exit1 _ => simp [hs] at hu
        | undef => simp [hs] at hu

theorem step_next_iff {vec : List instruction} {s t : State} :
    step vec s = some (.next t) ↔
      ∃ ins, fetch vec s = some ins ∧ loop_body (bias_of vec) ins s = .next t := by
  unfold step
  cases hf : fetch vec s with
  | none => simp
  | some ins => simp

theorem occ_count_congr {mem mem' : local_memory} (h : mem'.occupied = mem.occupied) :
    occ_count mem' = occ_count mem := by
  unfold occ_count
  rw [h]

theorem occ_count_le (mem : local_memory) : occ_count mem ≤ 256 := by
  unfold occ_count
  calc ((Finset.range 256).filter (fun i => mem.occupied i = true)).card
      ≤ (Finset.range 256).card := Finset.card_filter_le _ _
    _ = 256 := Finset.card_range 256

theorem occ_count_touch {mem mem' : local_memory} {a : Nat} (ha : a < 256)
    (h : mem'.occupied = fun i => if i = a then true else mem.occupied i) :
    occ_count mem' = if mem.occupied a then occ_count mem else occ_count mem + 1 := by
  unfold occ_count
  rw [h]
  by_cases hocc : mem.occupied a = true
  · simp only [hocc, if_true]
    congr 1
    apply Finset.filter_congr
    intro i _
    by_cases hi : i = a
    · subst hi
      simp [hocc]
    · simp [hi]
  · simp only [hocc, Bool.false_eq_true, if_false]
    have hset : (Finset.range 256).filter (fun i => (if i = a then true else mem.occupied i) = true)
        = insert a ((Finset.range 256).filter (fun i => mem.occupied i = true)) := by
      ext i
      simp only [Finset.mem_filter, Finset.mem_range, Finset.mem_insert]
      by_cases hi : i = a
      · subst hi
        simp [ha]
      · simp [hi]
    rw [hset, Finset.card_insert_of_not_mem]
    simp [hocc]

theorem run_invariant (vec : List instruction) :
    ∀ (n : Nat) (s : State), iterate vec n init_state = some s →
      ∃ l h : Nat, h ≤ l ∧ l ≤ n ∧
        s.instruction_count = wrap32 n ∧ s.LD_ST = wrap32 l ∧ s.local_hit = wrap32 h ∧
        s.cycle_count = wrap32 (((n : Int) - l) + 2 * h + 45 * ((l : Int) - h)) ∧
        l = h + occ_count s.localmemory := by
  intro n
  induction n with
  | zero =>
    intro s hs
    simp only [iterate, Option.some.injEq] at hs
    subst hs
    refine ⟨0, 0, le_refl _, le_refl _, rfl, rfl, rfl, rfl, ?_⟩
    simp [occ_count, init_state, init_localmem]
  | succ n ih =>
    intro t ht
    obtain ⟨u, hu, hst⟩ := (iterate_succ_last vec n init_state t).mp ht
    obtain ⟨ins, _, hb⟩ := step_next_iff.mp hst
    obtain ⟨l, h, hhl, hln, i1, i2, i3, i4, i5⟩ := ih u hu
    obtain ⟨c1, c2⟩ := loop_body_cases hb
    rcases c2 with ⟨_, k2, k3, k4, k5⟩ | ⟨_, kv, k2, k3, k4, k5⟩
    · refine ⟨l, h, hhl, by omega, ?_, by rw [k4, i2], by rw [k3, i3], ?_, ?_⟩
      · rw [c1, i1, wrap32_add_wrap32]
        push_cast
        rfl
      · rw [k2, i4, wrap32_add_wrap32]
        congr 1
        push_cast
        ring
      · rw [occ_count_congr k5]
        exact i5
    · have ha : (u.registers ins.reg2.toNat).toNat < 256 := by
        unfold validAddr LOCALMEMORY at kv
        omega
      have hcnt := occ_count_touch ha k5
      by_cases hocc : u.localmemory.occupied (u.registers ins.reg2.toNat).toNat = true
      · simp only [hocc, if_true] at k2 k3 hcnt
        refine ⟨l + 1, h + 1, by omega, by omega, ?_, ?_, ?_, ?_, by omega⟩
        · rw [c1, i1, wrap32_add_wrap32]
          push_cast
          rfl
        · rw [k4, i2, wrap32_add_wrap32]
          push_cast
          rfl
        · rw [k3, i3, wrap32_add_wrap32]
          push_cast
          rfl
        · rw [k2, i4, wrap32_add_wrap32]
          congr 1
          push_cast
          ring
      · simp only [hocc, Bool.false_eq_true, if_false] at k2 k3 hcnt
        refine ⟨l + 1, h, by omega, by omega, ?_, ?_, ?_, ?_, by omega⟩
        · rw [c1, i1, wrap32_add_wrap32]
          push_cast
          rfl
        · rw [k4, i2, wrap32_add_wrap32]
          push_cast
          rfl
        · rw [k3, i3, wrap32_add_wrap32, add_zero]
        · rw [k2, i4, wrap32_add_wrap32]
          congr 1
          push_cast
          ring

theorem run_loop_of_iterate (vec : List instruction) :
    ∀ (k : Nat) (s t : State), iterate vec k s = some t → vec.length ≤ t.ip →
      ∀ fuel, run_loop vec (fuel + k) s = .halted t := by
  intro k
  induction k with
  | zero =>
    intro s t h hend fuel
    simp only [iterate, Option.some.injEq] at h
    subst h
    exact run_loop_halted (fetch_none_of_le hend) _
  | succ k ih =>
    intro s t h hend fuel
    rw [iterate] at h
    cases hs : step vec s with
    | none => simp [hs] at h
    | some o =>
      cases o with
      | next s1 =>
        simp only [hs] at h
        obtain ⟨ins, hf, hb⟩ := step_next_iff.mp hs
        rw [← Nat.add_assoc, run_loop_next hf hb]
        exact ih s1 t h hend fuel
      | exit1 _ => simp [hs] at h
      | undef => simp [hs] at h

/-! ## Claims on the counters and on whole runs -/

/-- C11: every loop iteration that goes on to a next state (MOV, ADD, CMP,
JE taken or not, JMP, LD, ST) adds 1 to the executed-instruction counter,
whether or not it redirects the index; after n iterations from the initial
state the counter is n as a 32-bit `int`, so n itself below 2^31. -/
theorem executed_counter_counts_steps (vec : List instruction) (n : Nat) (s' : State)
    (hrun : iterate vec n init_state = some s') :
    (∀ s t : State, step vec s = some (.next t) →
      t.instruction_count = wrap32 (s.instruction_count + 1) ∧
      (INT_MIN ≤ s.instruction_count → s.instruction_count < INT_MAX →
        t.instruction_count = s.instruction_count + 1)) ∧
    s'.instruction_count = wrap32 n ∧
    ((n : Int) < 2 ^ 31 → s'.instruction_count = n) := by
  obtain ⟨l, h, _, _, i1, _⟩ := run_invariant vec n s' hrun
  refine ⟨?_, i1, ?_⟩
  · intro s t hst
    obtain ⟨ins, _, hb⟩ := step_next_iff.mp hst
    have c1 := (loop_body_cases hb).1
    refine ⟨c1, ?_⟩
    intro h1 h2
    rw [c1, wrap32_of_range (by omega) (by omega)]
  · intro hn
    rw [i1, wrap32_of_range (by unfold INT_MIN; omega) (by unfold INT_MAX; omega)]

/-- Witness for C11: two iterations of `CMP R0, R0` / `JE 10` (the JE is
taken) give an executed count of 2. -/
theorem executed_counter_counts_steps_witness :
    ∃ s', iterate prog_cmp_je 2 init_state = some s' ∧ s'.instruction_count = 2 := by
  have hsome : (iterate prog_cmp_je 2 init_state).isSome = true := rfl
  cases h : iterate prog_cmp_je 2 init_state with
  | none =>
    rw [h] at hsome
    exact absurd hsome (by simp)
  | some s' =>
    exact ⟨s', rfl, (executed_counter_counts_steps prog_cmp_je 2 s' h).2.2 (by decide)⟩

/-- C12 (scenario B): `MOV R0, 10` / `ST [R1], R0` / `LD R2, [R1]` run from the
initial state halts normally, whatever fuel is left over, with executed 3,
cycles 48, hits 1 and LD/ST 2: the cycle counter is 1 after the MOV, 46 after
the ST (a miss at address 0, no hit counted) and 48 after the LD (a hit); R1
is 0 at the ST and at the LD, and the LD reads back 10. -/
theorem scenario_b_run :
    (∀ fuel, (execute_assembly (fuel + 3) prog_st_ld).stats = some (3, 48, 1, 2)) ∧
    (iterate prog_st_ld 1 init_state).map (fun s => (s.cycle_count, s.local_hit, s.registers 1))
      = some (1, 0, 0) ∧
    (iterate prog_st_ld 2 init_state).map (fun s => (s.cycle_count, s.local_hit, s.registers 1))
      = some (46, 0, 0) ∧
    (iterate prog_st_ld 3 init_state).map (fun s => (s.cycle_count, s.local_hit, s.registers 2))
      = some (48, 1, 10) ∧
    accessed prog_st_ld 3 init_state = [0, 0] := by
  refine ⟨?_, rfl, rfl, rfl, rfl⟩
  intro fuel
  have hsome : (iterate prog_st_ld 3 init_state).isSome = true := rfl
  have hval : (iterate prog_st_ld 3 init_state).map
      (fun s => (s.ip, s.instruction_count, s.cycle_count, s.local_hit, s.LD_ST))
      = some (3, 3, 48, 1, 2) := rfl
  cases hs : iterate prog_st_ld 3 init_state with
  | none =>
    rw [hs] at hsome
    exact absurd hsome (by simp)
  | some t =>
    rw [hs] at hval
    simp only [Option.map_some', Option.some.injEq, Prod.mk.injEq] at hval
    obtain ⟨v0, v1, v2, v3, v4⟩ := hval
    unfold execute_assembly
    rw [run_loop_of_iterate prog_st_ld 3 init_state t hs (by rw [v0]; decide) fuel]
    simp only [Result.stats, v1, v2, v3, v4]

/-- C13 (scenario A): `MOV R0, 5` / `MOV R1, 3` / `ADD R0, R1` / `CMP R0, R1` run
from the initial state halts normally, whatever fuel is left over, with
executed 4, cycles 4, hits 0, LD/ST 0, and ends with R0 = 8 and the flag
false. -/
theorem scenario_a_run :
    ∀ fuel, ∃ s, execute_assembly (fuel + 4) prog_scenario_a = .halted s ∧
      (execute_assembly (fuel + 4) prog_scenario_a).stats = some (4, 4, 0, 0) ∧
      s.registers 0 = 8 ∧ s.cmp_flag = false := by
  intro fuel
  have hsome : (iterate prog_scenario_a 4 init_state).isSome = true := rfl
  have hval : (iterate prog_scenario_a 4 init_state).map
      (fun s => (s.ip, s.instruction_count, s.cycle_count, s.local_hit, s.LD_ST,
        s.registers 0, s.cmp_flag))
      = some (4, 4, 4, 0, 0, 8, false) := rfl
  cases hs : iterate prog_scenario_a 4 init_state with
  | none =>
    rw [hs] at hsome
    exact absurd hsome (by simp)
  | some t =>
    rw [hs] at hval
    simp only [Option.map_some', Option.some.injEq, Prod.mk.injEq] at hval
    obtain ⟨v0, v1, v2, v3, v4, v5, v6⟩ := hval
    have hrun : execute_assembly (fuel + 4) prog_scenario_a = .halted t :=
      run_loop_of_iterate prog_scenario_a 4 init_state t hs (by rw [v0]; decide) fuel
    refine ⟨t, hrun, ?_, v5, v6⟩
    rw [hrun]
    simp only [Result.stats, v1, v2, v3, v4]

/-- C17: a loop iteration whose instruction has a `type` outside MOV, ADD, CMP,
JE, JMP, LD, ST ends in `exit(1)`: at the exit the registers, the flag, the
memory cells and the occupancy flags are as before the iteration, no later
instruction is fetched, the run is fatal whatever the fuel and the rest of the
program, and no statistics are printed. -/
theorem unknown_opcode_fatal (vec : List instruction) (s : State) (ins : instruction)
    (hf : fetch vec s = some ins)
    (ht : ins.type ≠ MOV ∧ ins.type ≠ ADD ∧ ins.type ≠ CMP ∧ ins.type ≠ JE ∧
      ins.type ≠ JMP ∧ ins.type ≠ LD ∧ ins.type ≠ ST) (fuel : Nat) :
    (∃ e, step vec s = some (.exit1 e) ∧ e.registers = s.registers ∧
      e.cmp_flag = s.cmp_flag ∧ e.localmemory.memory = s.localmemory.memory ∧
      e.localmemory.occupied = s.localmemory.occupied) ∧
    run_loop vec (fuel + 1) s = .fatal ∧
    (run_loop vec (fuel + 1) s).stats = none ∧
    fetched vec (fuel + 1) s = [ins] ∧
    iterate vec (fuel + 1) s = none := by
  obtain ⟨t1, t2, t3, t4, t5, t6, t7⟩ := ht
  have hb : loop_body (bias_of vec) ins s =
      .exit1 { s with instruction_count := wrap32 (s.instruction_count + 1) } := by
    simp only [loop_body, t1, t2, t3, t4, t5, t6, t7, if_false]
  have hrun : run_loop vec (fuel + 1) s = .fatal := by
    conv => lhs; unfold run_loop
    simp [hf, hb]
  refine ⟨⟨{ s with instruction_count := wrap32 (s.instruction_count + 1) },
    by rw [step_of_fetch hf, hb], rfl, rfl, rfl, rfl⟩, hrun, ?_, ?_, ?_⟩
  · rw [hrun]
    rfl
  · simp [fetched, hf, hb]
  · simp [iterate, step, hf, hb]

/-- Witness for C17: the first instruction of `prog_unknown` has `type` -1. -/
theorem unknown_opcode_fatal_witness :
    run_loop prog_unknown (5 + 1) init_state = .fatal ∧
    (run_loop prog_unknown (5 + 1) init_state).stats = none ∧
    fetched prog_unknown (5 + 1) init_state = [⟨1, -1, 0, 0, 0, false⟩] := by
  obtain ⟨_, h2, h3, h4, _⟩ :=
    unknown_opcode_fatal prog_unknown init_state ⟨1, -1, 0, 0, 0, false⟩ rfl (by decide) 5
  exact ⟨h2, h3, h4⟩

/-- C18: in every state reached from the initial state there are numbers
h ≤ l ≤ n (hits, LD/ST executions, iterations) whose 32-bit values are the
hit, LD/ST and executed counters, and the cycle counter is the 32-bit value
of (n - l) + 2 h + 45 (l - h); while that total fits in an `int` (no
overflow) the counters themselves satisfy hits ≤ LD_ST ≤ executed and
cycles = (executed - LD_ST) + 2 hits + 45 (LD_ST - hits). -/
theorem cycle_accounting_identity (vec : List instruction) (n : Nat) (s : State)
    (hrun : iterate vec n init_state = some s) :
    ∃ l h : Nat, h ≤ l ∧ l ≤ n ∧
      s.instruction_count = wrap32 n ∧ s.LD_ST = wrap32 l ∧ s.local_hit = wrap32 h ∧
      s.cycle_count = wrap32 (((n : Int) - l) + 2 * h + 45 * ((l : Int) - h)) ∧
      (((n : Int) - l) + 2 * h + 45 * ((l : Int) - h) ≤ INT_MAX →
        s.local_hit ≤ s.LD_ST ∧ s.LD_ST ≤ s.instruction_count ∧
        s.cycle_count =
          (s.instruction_count - s.LD_ST) + 2 * s.local_hit + 45 * (s.LD_ST - s.local_hit)) := by
  obtain ⟨l, h, hhl, hln, i1, i2, i3, i4, _⟩ := run_invariant vec n s hrun
  refine ⟨l, h, hhl, hln, i1, i2, i3, i4, ?_⟩
  intro hfit
  have hmin : INT_MIN = -2147483648 := rfl
  have hmax : INT_MAX = 2147483647 := rfl
  have e1 : wrap32 (n : Int) = n := wrap32_of_range (by omega) (by omega)
  have e2 : wrap32 (l : Int) = l := wrap32_of_range (by omega) (by omega)
  have e3 : wrap32 (h : Int) = h := wrap32_of_range (by omega) (by omega)
  rw [i1, i2, i3, i4, e1, e2, e3, wrap32_of_range (by omega) hfit]
  refine ⟨by omega, by omega, rfl⟩

/-- Witness for C18: the state after the three instructions of
`prog_st_ld`. -/
theorem cycle_accounting_identity_witness :
    ∃ s, iterate prog_st_ld 3 init_state = some s ∧
      s.local_hit ≤ s.LD_ST ∧ s.LD_ST ≤ s.instruction_count ∧
      s.cycle_count =
        (s.instruction_count - s.LD_ST) + 2 * s.local_hit + 45 * (s.LD_ST - s.local_hit) := by
  have hsome : (iterate prog_st_ld 3 init_state).isSome = true := rfl
  cases hs : iterate prog_st_ld 3 init_state with
  | none =>
    rw [hs] at hsome
    exact absurd hsome (by simp)
  | some s =>
    obtain ⟨l, h, hhl, hln, _, _, _, _, himp⟩ := cycle_accounting_identity prog_st_ld 3 s hs
    have hmax : INT_MAX = 2147483647 := rfl
    exact ⟨s, rfl, himp (by omega)⟩

theorem run_loop_iterate (vec : List instruction) :
    ∀ (k : Nat) (s t : State), iterate vec k s = some t →
      ∀ fuel, run_loop vec (fuel + k) s = run_loop vec fuel t := by
  intro k
  induction k with
  | zero =>
    intro s t h fuel
    simp only [iterate, Option.some.injEq] at h
    subst h
    rfl
  | succ k ih =>
    intro s t h fuel
    rw [iterate] at h
    cases hs : step vec s with
    | none => simp [hs] at h
    | some o =>
      cases o with
      | next s1 =>
        simp only [hs] at h
        obtain ⟨ins, hf, hb⟩ := step_next_iff.mp hs
        rw [← Nat.add_assoc, run_loop_next hf hb]
        exact ih s1 t h fuel
      | exit1 _ => simp [hs] at h
      | undef => simp [hs] at h

theorem run_loop_zero_of_fetch {vec : List instruction} {s : State} {ins : instruction}
    (hf : fetch vec s = some ins) : run_loop vec 0 s = .out_of_fuel := by
  unfold run_loop
  simp [hf]

/-- C14 fails on the code at `MOV R0, 127` / `ADD R0, 1` (immediates in
[-128,127], register id 0): the run halts with R0 = 128, outside the 8-bit
signed range; `CHECK_8BIT` is never applied to the sum. -/
theorem register_range_exceeded :
    (iterate prog_add 1 init_state).map (fun s => s.registers 0) = some 127 ∧
    (iterate prog_add 2 init_state).map (fun s => s.registers 0) = some 128 ∧
    (∀ ins ∈ prog_add, -128 ≤ ins.immediate ∧ ins.immediate ≤ 127 ∧
      0 ≤ ins.reg1 ∧ ins.reg1 < 7 ∧ 0 ≤ ins.reg2 ∧ ins.reg2 < 7) ∧
    (execute_assembly 2 prog_add).stats = some (2, 2, 0, 0) := by
  refine ⟨rfl, rfl, by decide, rfl⟩

/-- C15: when the indices reachable from index 0 (a set `P` holding 0 and
closed under the jump) all hold a JMP, then after every number n of loop
iterations the run is in a running state (an index of the program at which an
instruction is fetched), and for every fuel the loop has neither halted nor
failed: it has used up the fuel. The loop itself has no iteration limit. -/
theorem jmp_cycle_runs_forever (vec : List instruction) (P : Nat → Prop) (h0 : P 0)
    (hP : ∀ i, P i → ∃ ins, vec[i]? = some ins ∧ ins.type = JMP ∧
      P (jump_target (bias_of vec) ins)) (n : Nat) :
    (∃ s ins, iterate vec n init_state = some s ∧ s.ip < vec.length ∧
      fetch vec s = some ins ∧ ins.type = JMP) ∧
    execute_assembly n vec = .out_of_fuel ∧
    (execute_assembly n vec).stats = none := by
  have key : ∀ k, ∃ s, iterate vec k init_state = some s ∧ P s.ip := by
    intro k
    induction k with
    | zero => exact ⟨init_state, rfl, h0⟩
    | succ k ih =>
      obtain ⟨u, hu, hPu⟩ := ih
      obtain ⟨ins, hget, ht, hnext⟩ := hP u.ip hPu
      have hb := @loop_body_jmp (bias_of vec) ins u ht
      refine ⟨_, (iterate_succ_last vec k init_state _).mpr
        ⟨u, hu, step_next_iff.mpr ⟨ins, hget, hb⟩⟩, hnext⟩
  obtain ⟨s, hs, hPs⟩ := key n
  obtain ⟨ins, hget, ht, _⟩ := hP s.ip hPs
  have hlt : s.ip < vec.length := by
    by_contra hge
    have hnone : vec[s.ip]? = none := List.getElem?_eq_none (by omega)
    rw [hnone] at hget
    cases hget
  have hrun : execute_assembly n vec = .out_of_fuel := by
    unfold execute_assembly
    have := run_loop_iterate vec n init_state s hs 0
    rw [Nat.zero_add] at this
    rw [this]
    exact run_loop_zero_of_fetch hget
  refine ⟨⟨s, ins, hs, hlt, hget, ht⟩, hrun, ?_⟩
  rw [hrun]
  rfl

/-- Witness for C15: the one-line program `10 JMP 10` after 1000
iterations. -/
theorem jmp_cycle_runs_forever_witness :
    (∃ s ins, iterate prog_jmp_self 1000 init_state = some s ∧ s.ip < prog_jmp_self.length ∧
      fetch prog_jmp_self s = some ins ∧ ins.type = JMP) ∧
    execute_assembly 1000 prog_jmp_self = .out_of_fuel ∧
    (execute_assembly 1000 prog_jmp_self).stats = none :=
  jmp_cycle_runs_forever prog_jmp_self (fun i => i = 0) rfl
    (fun i hi => by
      subst hi
      exact ⟨⟨10, JMP, 10, 0, 0, false⟩, rfl, rfl, rfl⟩) 1000

theorem loop_body_straight (bias : Int) {ins : instruction} (s : State)
    (ht : ins.type = MOV ∨ ins.type = ADD ∨ ins.type = CMP ∨ ins.type = LD ∨ ins.type = ST)
    (hr1 : validReg ins.reg1) (hr2 : validReg ins.reg2)
    (ha : is_ld_st ins = true → validAddr (s.registers ins.reg2.toNat)) :
    ∃ s', loop_body bias ins s = .next s' ∧ s'.ip = s.ip + 1 := by
  rcases ht with ht | ht | ht | ht | ht
  · exact ⟨_, loop_body_mov ht hr1, rfl⟩
  · exact ⟨_, loop_body_add ht hr1 hr2, rfl⟩
  · exact ⟨_, loop_body_cmp ht hr1 hr2, rfl⟩
  · have hv := ha (by simp [is_ld_st, ht])
    refine ⟨{ s with
        instruction_count := wrap32 (s.instruction_count + 1),
        registers := fun i =>
          if i = ins.reg1.toNat then s.localmemory.memory (s.registers ins.reg2.toNat).toNat
          else s.registers i,
        localmemory := { s.localmemory with
          occupied := fun i =>
            if i = (s.registers ins.reg2.toNat).toNat then true
            else s.localmemory.occupied i },
        cycle_count := wrap32 (s.cycle_count +
          (if s.localmemory.occupied (s.registers ins.reg2.toNat).toNat then 2 else 45)),
        local_hit := wrap32 (s.local_hit +
          (if s.localmemory.occupied (s.registers ins.reg2.toNat).toNat then 1 else 0)),
        LD_ST := wrap32 (s.LD_ST + 1), ip := s.ip + 1 }, ?_, rfl⟩
    simp only [loop_body, ht, readReg, writeReg, hr1, hr2, if_true, load_memory, hv]
    rfl
  · have hv := ha (by simp [is_ld_st, ht])
    refine ⟨{ s with
        instruction_count := wrap32 (s.instruction_count + 1),
        localmemory :=
          { memory := fun i =>
              if i = (s.registers ins.reg2.toNat).toNat then s.registers ins.reg1.toNat
              else s.localmemory.memory i,
            occupied := fun i =>
              if i = (s.registers ins.reg2.toNat).toNat then true
              else s.localmemory.occupied i },
        cycle_count := wrap32 (s.cycle_count +
          (if s.localmemory.occupied (s.registers ins.reg2.toNat).toNat then 2 else 45)),
        local_hit := wrap32 (s.local_hit +
          (if s.localmemory.occupied (s.registers ins.reg2.toNat).toNat then 1 else 0)),
        LD_ST := wrap32 (s.LD_ST + 1), ip := s.ip + 1 }, ?_, rfl⟩
    simp only [loop_body, ht, readReg, hr1, hr2, if_true, store_memory, hv]
    rfl

/-- C16: a program of length n made of MOV, ADD, CMP, LD and ST only,
with register ids in [0,7) and with every LD/ST address in [0,255] when
it is reached: for every k ≤ n the k-th loop iteration is reached with index
k, so instruction k is the one fetched at step k; with fewer than n units of
fuel the loop has not halted, and with n or more it halts normally in the state
after n iterations, whose index is n. -/
theorem straight_line_run (vec : List instruction)
    (hops : ∀ ins ∈ vec,
      (ins.type = MOV ∨ ins.type = ADD ∨ ins.type = CMP ∨ ins.type = LD ∨ ins.type = ST) ∧
      (0 ≤ ins.reg1 ∧ ins.reg1 < 7) ∧ (0 ≤ ins.reg2 ∧ ins.reg2 < 7))
    (haddr : ∀ k < vec.length, ∀ s ins, iterate vec k init_state = some s →
      fetch vec s = some ins → is_ld_st ins = true →
      0 ≤ s.registers ins.reg2.toNat ∧ s.registers ins.reg2.toNat ≤ 255) :
    (∀ k ≤ vec.length, ∃ s, iterate vec k init_state = some s ∧ s.ip = k ∧
      fetch vec s = vec[k]?) ∧
    iterate vec (vec.length + 1) init_state = none ∧
    (∀ fuel < vec.length, execute_assembly fuel vec = .out_of_fuel) ∧
    (∀ fuel, ∃ s, iterate vec vec.length init_state = some s ∧ s.ip = vec.length ∧
      execute_assembly (fuel + vec.length) vec = .halted s) := by
  have key : ∀ k ≤ vec.length, ∃ s, iterate vec k init_state = some s ∧ s.ip = k := by
    intro k
    induction k with
    | zero => exact fun _ => ⟨init_state, rfl, rfl⟩
    | succ k ih =>
      intro hk
      obtain ⟨u, hu, hip⟩ := ih (by omega)
      obtain ⟨ins, hf, hmem⟩ := fetch_some_of_lt vec u (by omega)
      obtain ⟨ht, hr1, hr2⟩ := hops ins hmem
      have ha : is_ld_st ins = true → validAddr (u.registers ins.reg2.toNat) := by
        intro hl
        have := haddr k (by omega) u ins hu hf hl
        exact ⟨this.1, by unfold LOCALMEMORY; omega⟩
      obtain ⟨t, hb, hipt⟩ := loop_body_straight (bias_of vec) u ht hr1 hr2 ha
      exact ⟨t, (iterate_succ_last vec k init_state t).mpr
        ⟨u, hu, step_next_iff.mpr ⟨ins, hf, hb⟩⟩, by omega⟩
  refine ⟨?_, ?_, ?_, ?_⟩
  · intro k hk
    obtain ⟨s, hs, hip⟩ := key k hk
    exact ⟨s, hs, hip, by unfold fetch; rw [hip]⟩
  · obtain ⟨s, hs, hip⟩ := key vec.length (le_refl _)
    cases hn : iterate vec (vec.length + 1) init_state with
    | none => rfl
    | some t =>
      obtain ⟨u, hu, hst⟩ := (iterate_succ_last vec vec.length init_state t).mp hn
      rw [hs] at hu
      cases hu
      obtain ⟨ins, hf, _⟩ := step_next_iff.mp hst
      rw [fetch_none_of_le (by omega)] at hf
      cases hf
  · intro fuel hfuel
    obtain ⟨s, hs, hip⟩ := key fuel (by omega)
    obtain ⟨ins, hf, _⟩ := fetch_some_of_lt vec s (by omega)
    unfold execute_assembly
    have := run_loop_iterate vec fuel init_state s hs 0
    rw [Nat.zero_add] at this
    rw [this]
    exact run_loop_zero_of_fetch hf
  · intro fuel
    obtain ⟨s, hs, hip⟩ := key vec.length (le_refl _)
    exact ⟨s, hs, hip, run_loop_of_iterate vec vec.length init_state s hs (by omega) fuel⟩

/-- Witness for C16: `MOV R0, 10` / `ST [R1], R0` / `LD R2, [R1]`, where R1 is 0
at the ST and at the LD, halts after three iterations with index 3. -/
theorem straight_line_run_witness :
    ∃ s, iterate prog_st_ld prog_st_ld.length init_state = some s ∧
      s.ip = prog_st_ld.length ∧
      execute_assembly (0 + prog_st_ld.length) prog_st_ld = .halted s := by
  have h0 : ∀ k < 3, (iterate prog_st_ld k init_state).bind
      (fun s => (fetch prog_st_ld s).map (fun ins => s.registers ins.reg2.toNat)) = some 0 := by
    intro k hk
    interval_cases k <;> rfl
  exact (straight_line_run prog_st_ld (by decide) (by
    intro k hk s ins hs hf _
    have h1 := h0 k hk
    rw [hs] at h1
    simp only [Option.some_bind, hf, Option.map_some', Option.some.injEq] at h1
    rw [h1]
    decide)).2.2.2 0

/-! ## Occupancy along a run -/

theorem iterate_occupied (vec : List instruction) :
    ∀ (n : Nat) (s t : State), iterate vec n s = some t →
      (∀ x ∈ accessed vec n s, validAddr x) ∧
      ∀ i : Nat, t.localmemory.occupied i = true ↔
        (s.localmemory.occupied i = true ∨ (i : Int) ∈ accessed vec n s) := by
  intro n
  induction n with
  | zero =>
    intro s t h
    simp only [iterate, Option.some.injEq] at h
    subst h
    simp [accessed]
  | succ n ih =>
    intro s t h
    rw [iterate] at h
    cases hs : step vec s with
    | none => simp [hs] at h
    | some o =>
      cases o with
      | exit1 _ => simp [hs] at h
      | undef => simp [hs] at h
      | next s1 =>
        simp only [hs] at h
        obtain ⟨ins, hf, hb⟩ := step_next_iff.mp hs
        obtain ⟨hvalid, hiff⟩ := ih s1 t h
        have hacc : accessed vec (n + 1) s =
            if is_ld_st ins then s.registers ins.reg2.toNat :: accessed vec n s1
            else accessed vec n s1 := by
          simp only [accessed, hf, hb]
        rcases (loop_body_cases hb).2 with ⟨hl, _, _, _, k5⟩ | ⟨hl, kv, _, _, _, k5⟩
        · rw [hacc]
          simp only [hl, Bool.false_eq_true, if_false]
          refine ⟨hvalid, ?_⟩
          intro i
          rw [hiff i, k5]
        · rw [hacc]
          simp only [hl, if_true]
          refine ⟨?_, ?_⟩
          · intro x hx
            rcases List.mem_cons.mp hx with hx | hx
            · rw [hx]
              exact kv
            · exact hvalid x hx
          · intro i
            rw [hiff i, k5, List.mem_cons]
            have hcast := validAddr_toNat kv
            have : i = (s.registers ins.reg2.toNat).toNat ↔
                (i : Int) = s.registers ins.reg2.toNat := by omega
            by_cases hi : i = (s.registers ins.reg2.toNat).toNat
            · simp [hi, hcast]
            · have hne : ¬ (i : Int) = s.registers ins.reg2.toNat := fun hh => hi (this.mpr hh)
              simp [hi, hne]

theorem occ_count_eq_card {mem : local_memory} {l : List Int}
    (hvalid : ∀ x ∈ l, validAddr x)
    (hiff : ∀ i : Nat, mem.occupied i = true ↔ (i : Int) ∈ l) :
    occ_count mem = l.toFinset.card := by
  unfold occ_count
  have himg : ((Finset.range 256).filter (fun i => mem.occupied i = true)).image
      (fun i : Nat => (i : Int)) = l.toFinset := by
    ext x
    simp only [Finset.mem_image, Finset.mem_filter, Finset.mem_range, List.mem_toFinset]
    constructor
    · rintro ⟨i, ⟨_, hocc⟩, rfl⟩
      exact (hiff i).mp hocc
    · intro hx
      have hv := hvalid x hx
      have hcast := validAddr_toNat hv
      refine ⟨x.toNat, ⟨?_, ?_⟩, hcast⟩
      · unfold validAddr LOCALMEMORY at hv
        omega
      · rw [hiff, hcast]
        exact hx
  rw [← himg, Finset.card_image_of_injective _ Nat.cast_injective]

theorem wrap32_sub_small {l h c : Nat} (hl : l = h + c) (hc : c ≤ 256) :
    wrap32 (wrap32 l - wrap32 h) = c := by
  unfold wrap32
  omega

/-- C19: in a state reached from the initial state (so every LD/ST address
was in [0,255]) an occupancy flag that is set stays set in every later state;
the set flags are those of the addresses accessed so far, their number is the
number of distinct accessed addresses, and it is at most 256; the `int`
difference `LD_ST - local_hit` (the misses) is that number, as a 32-bit
value in general and exactly while the number of iterations fits in an `int`. -/
theorem occupancy_counts_misses (vec : List instruction) (n : Nat) (s : State)
    (hrun : iterate vec n init_state = some s) :
    (∀ k t, iterate vec k s = some t →
      ∀ i, s.localmemory.occupied i = true → t.localmemory.occupied i = true) ∧
    (∀ i : Nat, s.localmemory.occupied i = true ↔ (i : Int) ∈ accessed vec n init_state) ∧
    (∀ x ∈ accessed vec n init_state, 0 ≤ x ∧ x ≤ 255) ∧
    occ_count s.localmemory = (accessed vec n init_state).toFinset.card ∧
    wrap32 (s.LD_ST - s.local_hit) = occ_count s.localmemory ∧
    ((n : Int) ≤ INT_MAX → s.LD_ST - s.local_hit = occ_count s.localmemory) ∧
    occ_count s.localmemory ≤ 256 := by
  obtain ⟨hvalid, hiff⟩ := iterate_occupied vec n init_state s hrun
  have hiff0 : ∀ i : Nat, s.localmemory.occupied i = true ↔
      (i : Int) ∈ accessed vec n init_state := by
    intro i
    rw [hiff i]
    simp [init_state, init_localmem]
  obtain ⟨l, h, hhl, hln, _, i2, i3, _, i5⟩ := run_invariant vec n s hrun
  have hle := occ_count_le s.localmemory
  refine ⟨?_, hiff0, ?_, occ_count_eq_card hvalid hiff0, ?_, ?_, hle⟩
  · intro k t hk i hi
    exact ((iterate_occupied vec k s t hk).2 i).mpr (Or.inl hi)
  · intro x hx
    have := hvalid x hx
    unfold validAddr LOCALMEMORY at this
    omega
  · rw [i2, i3]
    exact wrap32_sub_small i5 hle
  · intro hn
    have hmin : INT_MIN = -2147483648 := rfl
    have hmax : INT_MAX = 2147483647 := rfl
    rw [i2, i3, wrap32_of_range (by omega) (by omega), wrap32_of_range (by omega) (by omega)]
    omega

/-- Witness for C19: after the three instructions of `prog_st_ld` one cell
(address 0) is occupied and there is one miss. -/
theorem occupancy_counts_misses_witness :
    ∃ s, iterate prog_st_ld 3 init_state = some s ∧
      occ_count s.localmemory = (accessed prog_st_ld 3 init_state).toFinset.card ∧
      s.LD_ST - s.local_hit = occ_count s.localmemory := by
  have hsome : (iterate prog_st_ld 3 init_state).isSome = true := rfl
  cases hs : iterate prog_st_ld 3 init_state with
  | none =>
    rw [hs] at hsome
    exact absurd hsome (by simp)
  | some s =>
    obtain ⟨_, _, _, h4, _, h6, _⟩ := occupancy_counts_misses prog_st_ld 3 s hs
    exact ⟨s, rfl, h4, h6 (by decide)⟩

/-! ## Jump targets -/

theorem jump_target_inside {bias : Int} {ins : instruction}
    (h0 : 0 ≤ wrap32 (ins.reg1 - bias)) :
    ((jump_target bias ins : Nat) : Int) = wrap32 (ins.reg1 - bias) := by
  unfold jump_target
  exact toSizeT_of_nonneg h0 (wrap32_range _).2

/-- C20: an executed JMP, or a JE executed with the flag true, sets the index
to the `int` value of `ins.reg1 - bias` converted to the 64-bit `size_t` and
counts as one executed instruction and one cycle. When that `int` value is
in [0, size) the index is that value and the next instruction is fetched
there; when it is negative or at least size the loop condition fails at once:
the run is a normal halt in that state and the four counters are printed. The
vector holds fewer than 2^60 instructions. -/
theorem jump_target_handling (vec : List instruction) (first : instruction)
    (rest : List instruction) (hvec : vec = first :: rest) (hsize : vec.length < 2 ^ 60)
    (s : State) (ins : instruction) (hf : fetch vec s = some ins)
    (ht : ins.type = JMP ∨ (ins.type = JE ∧ s.cmp_flag = true))
    (hic : INT_MIN ≤ s.instruction_count ∧ s.instruction_count < INT_MAX)
    (hc : INT_MIN ≤ s.cycle_count ∧ s.cycle_count < INT_MAX) :
    ∃ s', step vec s = some (.next s') ∧
      s'.ip = toSizeT (wrap32 (ins.reg1 - first.line)) ∧
      s'.instruction_count = s.instruction_count + 1 ∧
      s'.cycle_count = s.cycle_count + 1 ∧
      s'.local_hit = s.local_hit ∧ s'.LD_ST = s.LD_ST ∧
      (0 ≤ wrap32 (ins.reg1 - first.line) →
        wrap32 (ins.reg1 - first.line) < (vec.length : Int) →
        (s'.ip : Int) = wrap32 (ins.reg1 - first.line) ∧ s'.ip < vec.length ∧
        fetch vec s' = vec[s'.ip]? ∧ ∃ nxt, fetch vec s' = some nxt) ∧
      (wrap32 (ins.reg1 - first.line) < 0 ∨
          (vec.length : Int) ≤ wrap32 (ins.reg1 - first.line) →
        ∀ fuel, run_loop vec (fuel + 1) s = .halted s' ∧
          (run_loop vec (fuel + 1) s).stats =
            some (s.instruction_count + 1, s.cycle_count + 1, s.local_hit, s.LD_ST)) := by
  have hbias := fetch_bias hf hvec
  have hw1 : wrap32 (s.instruction_count + 1) = s.instruction_count + 1 :=
    wrap32_of_range (by omega) (by omega)
  have hw2 : wrap32 (s.cycle_count + 1) = s.cycle_count + 1 :=
    wrap32_of_range (by omega) (by omega)
  have key : ∃ s', loop_body (bias_of vec) ins s = .next s' ∧
      s'.ip = jump_target (bias_of vec) ins ∧
      s'.instruction_count = s.instruction_count + 1 ∧
      s'.cycle_count = s.cycle_count + 1 ∧ s'.local_hit = s.local_hit ∧
      s'.LD_ST = s.LD_ST := by
    rcases ht with ht | ⟨ht, hflag⟩
    · exact ⟨_, loop_body_jmp ht, rfl, hw1, hw2, rfl, rfl⟩
    · exact ⟨_, loop_body_je_taken ht hflag, rfl, hw1, hw2, rfl, rfl⟩
  obtain ⟨s', hb, hip, h1, h2, h3, h4⟩ := key
  rw [hbias] at hip
  refine ⟨s', by rw [step_of_fetch hf, hb], hip, h1, h2, h3, h4, ?_, ?_⟩
  · intro hin0 hin1
    have hcast : (s'.ip : Int) = wrap32 (ins.reg1 - first.line) := by
      rw [hip]
      exact jump_target_inside hin0
    have hlt : s'.ip < vec.length := by omega
    refine ⟨hcast, hlt, rfl, ?_⟩
    obtain ⟨nxt, hn, _⟩ := fetch_some_of_lt vec s' hlt
    exact ⟨nxt, hn⟩
  · intro hout fuel
    have hge : vec.length ≤ s'.ip := by
      rw [hip]
      exact jump_target_outside hsize hout
    have hrun : run_loop vec (fuel + 1) s = .halted s' := by
      rw [run_loop_next hf hb fuel, run_loop_halted (fetch_none_of_le hge) fuel]
    refine ⟨hrun, ?_⟩
    rw [hrun]
    simp only [Result.stats, h1, h2, h3, h4]

/-- Witness for C20: the taken `JE 10` of `prog_cmp_je` continues at index 0. -/
theorem jump_target_handling_witness :
    ∃ s', step prog_cmp_je state_flag_set = some (.next s') ∧
      (s'.ip : Int) = wrap32 (10 - 10) ∧ s'.ip < prog_cmp_je.length ∧
      s'.instruction_count = 1 + 1 ∧ s'.cycle_count = 1 + 1 := by
  obtain ⟨s', h1, _, h3, h4, _, _, h7, _⟩ :=
    jump_target_handling prog_cmp_je ⟨10, CMP, 0, 0, 0, false⟩ [⟨11, JE, 10, 0, 0, false⟩]
      rfl (by decide) state_flag_set ⟨11, JE, 10, 0, 0, false⟩ rfl (Or.inr ⟨rfl, rfl⟩)
      (by decide) (by decide)
  obtain ⟨k1, k2, _, _⟩ := h7 (by decide) (by decide)
  exact ⟨s', h1, k1, k2, h3, h4⟩

end SimpleISS
